import Mathlib

/-!
# monget: organization lookup and user export

A shallow embedding of `main.go`.  The program builds a MongoDB connection
string, resolves an organization path to its identifier, fetches the users that
are members of that organization and writes them as indented JSON.

Conventions of the embedding:

* a Go `string` is its sequence of bytes (`GoString`, naturals below 256);
* a Go slice is `Option (List α)`: `none` is the nil slice, `some l` a non-nil
  slice holding `l` (the two differ in what `encoding/json` writes);
* the outcomes of the external steps (driver, file system) are read from a
  `World`; the effects of a run are recorded as a list of `Event`s, and
  `os.Exit` ends the run without running deferred calls.
-/

namespace Monget

/-! ## Strings -/

/-- A Go string: a sequence of bytes, each a natural number below 256. -/
abbrev GoString := List Nat

/-- A Go slice: `none` is nil, `some l` is a non-nil slice with elements `l`. -/
abbrev GoSlice (α : Type) := Option (List α)

/-- The elements of a slice (`range` over it); nil has none. -/
def GoSlice.elems {α : Type} : GoSlice α → List α
  | none => []
  | some l => l

/-- Go `utf8.RuneError`, U+FFFD. -/
def RuneError : Nat := 0xFFFD

/-- Go `utf8.AppendRune`: the UTF-8 bytes of rune `r`; surrogates and values
above U+10FFFF are written as U+FFFD.  Shifts and masks are written as
division and remainder. -/
def encodeRune (r : Nat) : GoString :=
  if r ≤ 0x7F then [r]
  else if r ≤ 0x7FF then [0xC0 + r / 64, 0x80 + r % 64]
  else if r > 0x10FFFF ∨ (0xD800 ≤ r ∧ r ≤ 0xDFFF) then [0xEF, 0xBF, 0xBD]
  else if r ≤ 0xFFFF then [0xE0 + r / 4096, 0x80 + r / 64 % 64, 0x80 + r % 64]
  else [0xF0 + r / 262144, 0x80 + r / 4096 % 64, 0x80 + r / 64 % 64, 0x80 + r % 64]

/-- The bytes of a string literal of the source (its UTF-8 encoding). -/
def utf8 (s : String) : GoString :=
  s.data.flatMap (fun c => encodeRune c.toNat)

/-- Go `strings.HasPrefix(s, p)`. -/
def HasPrefix (s p : GoString) : Bool :=
  p.isPrefixOf s

/-- Go `utf8.DecodeRune`: the rune at the head of `p` and its width in bytes;
`(RuneError, 1)` for an invalid or short encoding, `(RuneError, 0)` for no
input.  `lo` and `hi` are the accept range of the second byte. -/
def decodeRune : GoString → Nat × Nat
  | [] => (RuneError, 0)
  | p0 :: rest =>
    if p0 < 0x80 then (p0, 1)
    else if p0 < 0xC2 ∨ 0xF4 < p0 then (RuneError, 1)
    else
      let lo := if p0 = 0xE0 then 0xA0 else if p0 = 0xF0 then 0x90 else 0x80
      let hi := if p0 = 0xED then 0x9F else if p0 = 0xF4 then 0x8F else 0xBF
      match rest with
      | [] => (RuneError, 1)
      | b1 :: rest =>
        if b1 < lo ∨ hi < b1 then (RuneError, 1)
        else if p0 < 0xE0 then (p0 % 32 * 64 + b1 % 64, 2)
        else
          match rest with
          | [] => (RuneError, 1)
          | b2 :: rest =>
            if b2 < 0x80 ∨ 0xBF < b2 then (RuneError, 1)
            else if p0 < 0xF0 then (p0 % 16 * 4096 + b1 % 64 * 64 + b2 % 64, 3)
            else
              match rest with
              | [] => (RuneError, 1)
              | b3 :: _ =>
                if b3 < 0x80 ∨ 0xBF < b3 then (RuneError, 1)
                else (p0 % 8 * 262144 + b1 % 64 * 4096 + b2 % 64 * 64 + b3 % 64, 4)

/-- Whether the head of `s` is an invalid byte: `DecodeRune` gives
`(RuneError, 1)`. -/
def invalidHead (s : GoString) : Bool :=
  (decodeRune s).1 == RuneError && (decodeRune s).2 == 1

/-- The value of a hexadecimal digit. -/
def hexVal (c : Nat) : Option Nat :=
  if 0x30 ≤ c ∧ c ≤ 0x39 then some (c - 0x30)
  else if 0x61 ≤ c ∧ c ≤ 0x66 then some (c - 0x61 + 10)
  else if 0x41 ≤ c ∧ c ≤ 0x46 then some (c - 0x41 + 10)
  else none

/-- A decimal digit. -/
def isDigit (c : Nat) : Bool :=
  0x30 ≤ c && c ≤ 0x39

/-- The digit loop of Go `fmt.fmtInteger` in base 10: while `u` is at least
10 its last digit is put before `acc` and `u` divided by 10; the digit that is
left comes first. -/
def fmtDigits : Nat → Nat → GoString → GoString
  | 0, u, acc => (0x30 + u) :: acc
  | fuel + 1, u, acc =>
    if u ≥ 10 then fmtDigits fuel (u / 10) ((0x30 + (u - u / 10 * 10)) :: acc)
    else (0x30 + u) :: acc

/-- Go `fmt.fmtInteger` for the verb `%d` without flags: a minus sign for a
negative number, then the digits of its magnitude. -/
def fmtInteger (n : Int) : GoString :=
  if n < 0 then 0x2D :: fmtDigits n.natAbs n.natAbs []
  else fmtDigits n.natAbs n.natAbs []

/-- The number a sequence of decimal digits stands for, read from the left;
`none` for the empty sequence and for one that holds another byte. -/
def digitsValue (ds : GoString) : Option Nat :=
  if ds.isEmpty || !ds.all isDigit then none
  else some (ds.foldl (fun a d => a * 10 + (d - 0x30)) 0)

/-- The integer a decimal numeral stands for: an optional minus sign and
digits. -/
def decimalValue : GoString → Option Int
  | [] => none
  | c :: ds =>
    if c = 0x2D then (digitsValue ds).map (fun n => -Int.ofNat n)
    else (digitsValue (c :: ds)).map Int.ofNat

/-- The numeral is in the usual form: no leading zero except for zero itself,
and no minus sign before zero. -/
def canonicalDecimal : GoString → Bool
  | [] => false
  | c :: ds =>
    if c = 0x2D then
      match ds with
      | [] => false
      | d :: _ => d != 0x30
    else c != 0x30 || ds.isEmpty

/-! ## Globals and types of `main.go` -/

def MONGO_PREFIX : GoString := utf8 "mongodb://"

def MONGO_OPTS : GoString :=
  utf8 "?tls=true&replicaSet=rs0&readPreference=secondaryPreferred&retryWrites=false"

def ORGS : GoString := utf8 "organizations"

def USERS : GoString := utf8 "users"

/-- A field of a struct declaration: its Go name and its raw tag. -/
structure StructField where
  name : String
  tag : String
deriving DecidableEq, Repr

structure Org where
  ID : GoString
  Path : GoString
  CustomerID : GoString
deriving DecidableEq, Repr

structure UserOrganization where
  UserID : GoString
  OrgID : GoString
  Email : GoString
deriving DecidableEq, Repr

structure User where
  ExternalID : GoString
  Organizations : GoSlice UserOrganization
deriving DecidableEq, Repr

/-- The field declarations of `Org`, tags as written in the source. -/
def Org.fields : List StructField :=
  [⟨"ID", "bson:\"id\""⟩, ⟨"Path", "bson:\"path\""⟩, ⟨"CustomerID", "bson:\"customerId\""⟩]

/-- The field declarations of `UserOrganization`, tags as written in the source. -/
def UserOrganization.fields : List StructField :=
  [⟨"UserID", "bson:\"userId\""⟩, ⟨"OrgID", "bson:\"orgId\""⟩, ⟨"Email", "bson:\"email\""⟩]

/-- The field declarations of `User`, tags as written in the source. -/
def User.fields : List StructField :=
  [⟨"ExternalID", "bson:\"external_id\""⟩, ⟨"Organizations", "bson:\"organizations\""⟩]

/-! ## Struct tags (`reflect.StructTag.Lookup`) -/

/-- The quoted value at the head of `tag` (after its opening quote): the bytes
up to the closing quote, escapes as written, and what follows the quote.  A
backslash takes the next byte with it. -/
def scanQuoted : GoString → Option (GoString × GoString)
  | [] => none
  | 0x22 :: rest => some ([], rest)
  | 0x5C :: c :: rest => (scanQuoted rest).map (fun r => (0x5C :: c :: r.1, r.2))
  | c :: rest => (scanQuoted rest).map (fun r => (c :: r.1, r.2))

/-- The value of `n` hexadecimal digits at the head of `s`, and the rest. -/
def hexDigits : Nat → GoString → Option (Nat × GoString)
  | 0, s => some (0, s)
  | _ + 1, [] => none
  | n + 1, c :: rest =>
    match hexVal c, hexDigits n rest with
    | some v, some (w, rest) => some (v * 16 ^ n + w, rest)
    | _, _ => none

/-- The loop of Go `strconv.Unquote` over the inside of a double-quoted
string. -/
def unquoteTagLoop : Nat → GoString → Option GoString
  | 0, s => if s.isEmpty then some [] else none
  | _ + 1, [] => some []
  | fuel + 1, c :: rest =>
    if c = 0x22 ∨ c = 0x0A then none
    else if c = 0x5C then
      match rest with
      | [] => none
      | e :: rest =>
        if e = 0x61 then (unquoteTagLoop fuel rest).map (0x07 :: ·)
        else if e = 0x62 then (unquoteTagLoop fuel rest).map (0x08 :: ·)
        else if e = 0x66 then (unquoteTagLoop fuel rest).map (0x0C :: ·)
        else if e = 0x6E then (unquoteTagLoop fuel rest).map (0x0A :: ·)
        else if e = 0x72 then (unquoteTagLoop fuel rest).map (0x0D :: ·)
        else if e = 0x74 then (unquoteTagLoop fuel rest).map (0x09 :: ·)
        else if e = 0x76 then (unquoteTagLoop fuel rest).map (0x0B :: ·)
        else if e = 0x5C ∨ e = 0x22 then (unquoteTagLoop fuel rest).map (e :: ·)
        else if e = 0x78 then
          match hexDigits 2 rest with
          | some (v, rest) => (unquoteTagLoop fuel rest).map (v :: ·)
          | none => none
        else if e = 0x75 ∨ e = 0x55 then
          match hexDigits (if e = 0x75 then 4 else 8) rest with
          | some (v, rest) =>
            if v > 0x10FFFF ∨ (0xD800 ≤ v ∧ v ≤ 0xDFFF) then none
            else (unquoteTagLoop fuel rest).map (encodeRune v ++ ·)
          | none => none
        else if 0x30 ≤ e ∧ e ≤ 0x37 then
          match rest with
          | o1 :: o2 :: rest =>
            if 0x30 ≤ o1 ∧ o1 ≤ 0x37 ∧ 0x30 ≤ o2 ∧ o2 ≤ 0x37 ∧
                (e - 0x30) * 64 + (o1 - 0x30) * 8 + (o2 - 0x30) ≤ 255 then
              (unquoteTagLoop fuel rest).map
                (((e - 0x30) * 64 + (o1 - 0x30) * 8 + (o2 - 0x30)) :: ·)
            else none
          | _ => none
        else none
    else if c < 0x80 then (unquoteTagLoop fuel rest).map (c :: ·)
    else
      (unquoteTagLoop fuel ((c :: rest).drop (decodeRune (c :: rest)).2)).map
        (encodeRune (decodeRune (c :: rest)).1 ++ ·)

/-- Go `strconv.Unquote` of the double-quoted string with the inside `raw`. -/
def unquoteTag (raw : GoString) : Option GoString :=
  unquoteTagLoop raw.length raw

/-- The loop of `StructTag.Lookup` over the `key:"value"` pairs of a tag. -/
def lookupTagAux (key : GoString) : Nat → GoString → Option GoString
  | 0, _ => none
  | fuel + 1, tag =>
    let tag := tag.dropWhile (· == 0x20)
    let name := tag.takeWhile (fun c => c > 0x20 && c != 0x3A && c != 0x22 && c != 0x7F)
    match tag.drop name.length with
    | 0x3A :: 0x22 :: rest =>
      if name.isEmpty then none
      else
        match scanQuoted rest with
        | none => none
        | some (raw, rest) =>
          if name == key then unquoteTag raw else lookupTagAux key fuel rest
    | _ => none

/-- Go `reflect.StructTag.Lookup`. -/
def StructTag.Lookup (tag key : String) : Option GoString :=
  lookupTagAux (utf8 key) ((utf8 tag).length + 1) (utf8 tag)

/-! ## Effects and the outside world -/

/-- A Go `error` value, by its message. -/
abbrev Err := String

/-- Where written text goes. -/
inductive Dest where
  | stdout
  | file (name : GoString)
deriving DecidableEq, Repr

/-- The effects of a run, in order. -/
inductive Event where
  | validate (uri : GoString)
  | connect (uri : GoString)
  | disconnect
  | cancel
  | findOne (coll : GoString) (key value : GoString)
  | find (coll : GoString) (key value : GoString)
  | cursorAll
  | cursorClose
  | create (name : GoString)
  | fileClose (name : GoString)
  | logError (msg : String)
  | write (dest : Dest) (text : GoString)
  | usage
  | panic (msg : String)
  | exit (code : Nat)
deriving DecidableEq, Repr

/-- The outcomes of the external steps of one run.  `validateErr` is what
`opts.Validate` returns for a connection string, `tlsConfig` whether
`ApplyURI` has left a TLS configuration in the options (it does when the
string asks for `tls=true`, and does not when a query carried by `-murl` turns
TLS off and swallows the fixed suffix), `connectErr` what `mongo.Connect`
returns, `orgs` and
`users` the contents of the two collections, `findOneErr`, `findErr` and
`allErr` a failure of the driver call itself (connectivity, timeout, decoding),
`allNilOnEmpty` whether `cursor.All` leaves a nil slice when it decodes no
document, `createErr` what `os.Create` returns and `marshalIndent` the result
of `json.MarshalIndent(users, "", "  ")`. -/
structure World where
  validateErr : GoString → Option Err
  tlsConfig : GoString → Bool
  connectErr : GoString → Option Err
  orgs : List Org
  users : List User
  findOneErr : Option Err
  findErr : Option Err
  allErr : Option Err
  allNilOnEmpty : Bool
  createErr : GoString → Option Err
  marshalIndent : GoSlice User → Except Err GoString

/-- The receiver of `getOrgId` and `getUsers`: a database handle and a
context.  In the embedding it is the world the two give access to. -/
abbrev MDB := World

/-- The command-line flags after `flag.Parse`. -/
structure Flags where
  murl : GoString
  mdb : GoString
  mport : Int
  org : GoString
  outFile : GoString
deriving DecidableEq, Repr

/-- The outcome of `flag.Parse` on the command line: the flags, or the end of
the process that the flag package brings about for `-h` and for a command
line it rejects. -/
inductive FlagParse where
  | ok (fl : Flags)
  | help
  | failed
deriving DecidableEq, Repr

/-- The defaults of the five flags. -/
def defaultFlags : Flags :=
  { murl := utf8 "mongodb://localhost", mdb := utf8 "idm", mport := 27017,
    org := utf8 "testorg", outFile := utf8 "" }

/-! ## The document store -/

/-- A BSON value, as far as the documents of the two collections need it. -/
inductive BSON where
  | null
  | str (s : GoString)
  | arr (xs : List BSON)
  | doc (fields : List (GoString × BSON))

/-- ASCII letters in lower case (`strings.ToLower` on a Go identifier). -/
def toLowerASCII (s : GoString) : GoString :=
  s.map (fun c => if 0x41 ≤ c ∧ c ≤ 0x5A then c + 0x20 else c)

/-- The key under which the driver's struct codec stores a field: the name in
the `bson` tag (up to the first comma), else the lower-cased field name;
`none` for a field tagged `bson:"-"`, which is left out. -/
def bsonKey (f : StructField) : Option GoString :=
  match StructTag.Lookup f.tag "bson" with
  | some t =>
    if t = [0x2D] then none
    else
      let name := t.takeWhile (· != 0x2C)
      if name.isEmpty then some (toLowerASCII (utf8 f.name)) else some name
  | none => some (toLowerASCII (utf8 f.name))

/-- The fields of a struct value as the fields of a BSON document. -/
def bsonFields (fields : List StructField) (values : List BSON) : List (GoString × BSON) :=
  (fields.zip values).filterMap (fun fv => (bsonKey fv.1).map (fun k => (k, fv.2)))

/-- A slice as a BSON field value: nil is stored as null. -/
def sliceToBSON {α : Type} (f : α → BSON) : GoSlice α → BSON
  | none => .null
  | some l => .arr (l.map f)

def Org.toBSON (o : Org) : BSON :=
  .doc (bsonFields Org.fields [.str o.ID, .str o.Path, .str o.CustomerID])

def UserOrganization.toBSON (m : UserOrganization) : BSON :=
  .doc (bsonFields UserOrganization.fields [.str m.UserID, .str m.OrgID, .str m.Email])

def User.toBSON (u : User) : BSON :=
  .doc (bsonFields User.fields
    [.str u.ExternalID, sliceToBSON UserOrganization.toBSON u.Organizations])

/-- The components of a dotted field path. -/
def splitPath : GoString → List GoString
  | [] => [[]]
  | c :: cs =>
    match splitPath cs with
    | [] => [[c]]
    | p :: ps => if c = 0x2E then [] :: p :: ps else (c :: p) :: ps

/-- Equality match of the store at the end of a path: the value is the string,
or an array holding the string. -/
def matchLeaf (target : GoString) : BSON → Bool
  | .str s => s == target
  | .arr xs => xs.any (fun x => match x with
      | .str s => s == target
      | _ => false)
  | _ => false

/-- The value of field `k` of an embedded document; other values have none. -/
def fieldOf (k : GoString) : BSON → List BSON
  | .doc fields => (fields.lookup k).toList
  | _ => []

/-- The values one path component `k` leads to: the field of an embedded
document, and of every embedded document of an array. -/
def descend (k : GoString) : BSON → List BSON
  | .arr xs => xs.flatMap (fieldOf k)
  | v => fieldOf k v

/-- The store's match of `path = target` on a document. -/
def matchPath (target : GoString) : List GoString → BSON → Bool
  | [], v => matchLeaf target v
  | k :: ks, v => (descend k v).any (matchPath target ks)

/-- The store's evaluation of the filter `bson.M{key: value}` on a document. -/
def matchFilter (key value : GoString) (d : BSON) : Bool :=
  matchPath value (splitPath key) d

/-- The driver's `mongo.ErrNoDocuments`. -/
def ErrNoDocuments : Err := "mongo: no documents in result"

/-- What `cursor.All` stores in the nil slice it is given. -/
def cursorAll (w : World) (docs : List User) : GoSlice User :=
  if docs.isEmpty && w.allNilOnEmpty then none else some docs

/-! ## `getOrgId`, `getUsers`, `main` -/

/-- The method `(m *MDB) getOrgId`: the events, the returned string and the returned
error. -/
def getOrgId (m : MDB) (orgPath : GoString) : List Event × GoString × Option Err :=
  let ev := Event.findOne ORGS (utf8 "path") orgPath
  match m.findOneErr with
  | some err => ([ev], [], some err)
  | none =>
    match m.orgs.find? (fun o => matchFilter (utf8 "path") orgPath o.toBSON) with
    | none => ([ev], [], some ErrNoDocuments)
    | some org => ([ev], org.ID, none)

/-- The method `(m *MDB) getUsers`: the events, the returned slice and the returned
error.  The deferred `cursor.Close` runs when the function returns. -/
def getUsers (m : MDB) (orgId : GoString) : List Event × GoSlice User × Option Err :=
  let resUsers : GoSlice User := none
  let ev := Event.find USERS (utf8 "organizations.orgId") orgId
  match m.findErr with
  | some err => ([ev], resUsers, some err)
  | none =>
    match m.allErr with
    | some err => ([ev, .cursorAll, .cursorClose], resUsers, some err)
    | none =>
      let docs := m.users.filter
        (fun u => matchFilter (utf8 "organizations.orgId") orgId u.toBSON)
      ([ev, .cursorAll, .cursorClose], cursorAll m docs, none)

/-- The outcome of a run: its effects and the exit code of the process. -/
structure Run where
  trace : List Event
  exitCode : Nat
deriving DecidableEq, Repr

/-- Go `os.Exit(code)`: the process ends at once, deferred calls are not run. -/
def osExit (trace : List Event) (code : Nat) : Run :=
  { trace := trace ++ [.exit code], exitCode := code }

/-- A run-time panic outside any deferred call: the process ends with exit
status 2. -/
def goPanic (trace : List Event) (msg : String) : Run :=
  { trace := trace ++ [.panic msg], exitCode := 2 }

/-- A return from `main`: the deferred calls run, last registered first, and
the process ends with code 0. -/
def returnFromMain (trace deferred : List Event) : Run :=
  { trace := trace ++ deferred, exitCode := 0 }

/-- Go `fmt.Sprintf("%s:%d/%s", a, d, b)`. -/
def Sprintf_s_d_s (a : GoString) (d : Int) (b : GoString) : GoString :=
  a ++ [0x3A] ++ fmtInteger d ++ [0x2F] ++ b

/-- The value of `*murl` after the prefix step of `main`. -/
def murlWithScheme (murl : GoString) : GoString :=
  if !HasPrefix murl MONGO_PREFIX then MONGO_PREFIX ++ murl else murl

/-- The connection string `mongoUrl` of `main`. -/
def mongoUrl (fl : Flags) : GoString :=
  Sprintf_s_d_s (murlWithScheme fl.murl) fl.mport MONGO_OPTS

/-- Go `fmt.Sprint` of a slice of memberships (verb `%v`). -/
def sprintOrgs (ms : GoSlice UserOrganization) : GoString :=
  0x5B :: List.intercalate [0x20] (ms.elems.map (fun m =>
    0x7B :: m.UserID ++ 0x20 :: m.OrgID ++ 0x20 :: m.Email ++ [0x7D])) ++ [0x5D]

/-- Go `fmt.Sprint` of a slice of users (verb `%v`). -/
def sprintUsers (us : GoSlice User) : GoString :=
  0x5B :: List.intercalate [0x20] (us.elems.map (fun u =>
    0x7B :: u.ExternalID ++ 0x20 :: sprintOrgs u.Organizations ++ [0x7D])) ++ [0x5D]

/-- The export step of `main`, from `json.MarshalIndent` on: the events before
the return. -/
def exportUsers (w : World) (output : Dest) (users : GoSlice User) : List Event :=
  match w.marshalIndent users with
  | .error _ =>
    [.logError "err converting to json: %e", .write .stdout (sprintUsers users ++ [0x0A])]
  | .ok usersJSON => [.write output (usersJSON ++ [0x0A])]

/-- The function `main`.  `flag.Parse` ends the process with code 0 for `-h`
and with code 2 for a command line it rejects.  The assignment to
`opts.TLSConfig.InsecureSkipVerify` panics when the options hold no TLS
configuration; no call is deferred yet at that point. -/
def main (p : FlagParse) (w : World) : Run :=
  match p with
  | .help => osExit [.usage] 0
  | .failed => osExit [.usage] 2
  | .ok fl =>
    let uri := mongoUrl fl
    match w.validateErr uri with
    | some _ => osExit [.validate uri, .logError "got err"] 1
    | none =>
      if w.tlsConfig uri = false then
        goPanic [.validate uri] "runtime error: invalid memory address or nil pointer dereference"
      else
        match w.connectErr uri with
        | some _ => osExit [.validate uri, .connect uri, .logError "couldn't connect: %e"] 1
        | none =>
          let t0 := [Event.validate uri, .connect uri]
          let (e1, orgId, err) := getOrgId w fl.org
          match err with
          | some _ => osExit (t0 ++ e1 ++ [.logError "couldn't get org id: %e"]) 1
          | none =>
            let (e2, users, err) := getUsers w orgId
            match err with
            | some _ => osExit (t0 ++ e1 ++ e2 ++ [.logError "couldn't get users for org "]) 1
            | none =>
              if fl.outFile ≠ [] then
                match w.createErr fl.outFile with
                | some _ =>
                  osExit (t0 ++ e1 ++ e2 ++
                    [.create fl.outFile, .logError "err creating file %s: %e"]) 1
                | none =>
                  returnFromMain
                    (t0 ++ e1 ++ e2 ++ .create fl.outFile ::
                      exportUsers w (.file fl.outFile) users)
                    [.fileClose fl.outFile, .disconnect, .cancel]
              else
                returnFromMain (t0 ++ e1 ++ e2 ++ exportUsers w .stdout users)
                  [.disconnect, .cancel]

/-- The text written to an output destination during a run, in order.  Log
records are not among them: `slog` writes to standard error. -/
def writes : List Event → List (Dest × GoString)
  | [] => []
  | .write d t :: es => (d, t) :: writes es
  | _ :: es => writes es

/-- An event of the user fetch: the find on the users collection and the
calls on its cursor. -/
def Event.isFetch : Event → Bool
  | .find _ _ _ => true
  | .cursorAll => true
  | .cursorClose => true
  | _ => false

/-- An event on the output: creating or closing the file, or writing text to
the file or to standard output. -/
def Event.isOutput : Event → Bool
  | .create _ => true
  | .fileClose _ => true
  | .write _ _ => true
  | _ => false

/-- The organization of the scenario: path `acme`, identifier `org_123`. -/
def acme : Org := { ID := utf8 "org_123", Path := utf8 "acme", CustomerID := utf8 "cus_1" }

/-- A user with the single membership of the scenario. -/
def userOne : User :=
  { ExternalID := utf8 "e1",
    Organizations := some [⟨utf8 "u1", utf8 "org_123", utf8 "a@x.com"⟩] }

/-- A user with two memberships, the second in `org_123`. -/
def userTwo : User :=
  { ExternalID := utf8 "e2",
    Organizations := some [⟨utf8 "u2", utf8 "org_9", utf8 "b@y.com"⟩,
      ⟨utf8 "u2", utf8 "org_123", utf8 "b@x.com"⟩] }

/-- A user with an empty membership list. -/
def userNone : User := { ExternalID := utf8 "e3", Organizations := some [] }

/-- A user of another organization only. -/
def userOther : User :=
  { ExternalID := utf8 "e4", Organizations := some [⟨utf8 "u4", utf8 "org_9", utf8 "d@y.com"⟩] }

/-- A user whose external identifier is `café` in Latin-1: the byte `0xE9` is
not well-formed UTF-8. -/
def userLatin1 : User :=
  { ExternalID := [0x63, 0x61, 0x66, 0xE9],
    Organizations := some [⟨utf8 "u5", utf8 "org_123", utf8 "e@x.com"⟩] }

/-- A user with a nil membership list and text outside ASCII. -/
def userNil : User := { ExternalID := utf8 "zoë <€> \"😀\"", Organizations := none }

/-- A world in which every external step succeeds, over a store with one
organization and four users; `marshal` is the serializer of the run. -/
def sampleWorld (marshal : GoSlice User → Except Err GoString) : World :=
  { validateErr := fun _ => none, tlsConfig := fun _ => true, connectErr := fun _ => none,
    orgs := [acme], users := [userOne, userNone, userTwo, userOther],
    findOneErr := none, findErr := none, allErr := none, allNilOnEmpty := true,
    createErr := fun _ => none, marshalIndent := marshal }

/-- A URL that carries its own query: TLS is turned off, and what `main`
appends becomes part of the value of `appName`. -/
def murlWithQuery : GoString := utf8 "mongodb://h/?tls=false&appName=a"

/-- The sample world as the driver behaves for a connection string built from
`murlWithQuery`: the string is valid, and the options hold no TLS
configuration. -/
def noTLSWorld (marshal : GoSlice User → Except Err GoString) : World :=
  { sampleWorld marshal with tlsConfig := fun _ => false }

/-- A serializer that fails. -/
def failingMarshal : GoSlice User → Except Err GoString :=
  fun _ => .error "json: unsupported value"

/-! ## UTF-8 (`unicode/utf8`) -/

/-- The loop of Go `utf8.Valid`. -/
def validLoop : Nat → GoString → Bool
  | 0, s => s.isEmpty
  | _ + 1, [] => true
  | fuel + 1, b :: rest =>
    if b < 0x80 then validLoop fuel rest
    else if invalidHead (b :: rest) then false
    else validLoop fuel ((b :: rest).drop (decodeRune (b :: rest)).2)

/-- Go `utf8.Valid`: the string is well-formed UTF-8. -/
def validUTF8 (s : GoString) : Bool :=
  validLoop s.length s

/-- One pass of the coercion to well-formed UTF-8, at a non-empty `s`: the
bytes kept for the rune at its head (U+FFFD for an invalid byte), and its
width. -/
def coerceStep (s : GoString) : GoString × Nat :=
  match s with
  | [] => ([], 0)
  | b :: _ =>
    if b < 0x80 then ([b], 1)
    else if invalidHead s then ([0xEF, 0xBF, 0xBD], 1)
    else (s.take (decodeRune s).2, (decodeRune s).2)

/-- The string with every invalid byte replaced by U+FFFD: the loop. -/
def toValidLoop : Nat → GoString → GoString
  | 0, _ => []
  | _ + 1, [] => []
  | fuel + 1, b :: rest =>
    (coerceStep (b :: rest)).1 ++ toValidLoop fuel ((b :: rest).drop (coerceStep (b :: rest)).2)

/-- Go `strings.ToValidUTF8(s, "�")` applied byte by byte: what
`encoding/json` makes of a string. -/
def toValidUTF8 (s : GoString) : GoString :=
  toValidLoop s.length s

/-! ## Writing JSON (`encoding/json`, `encode.go` and `indent.go`) -/

/-- The digit `"0123456789abcdef"[n]`. -/
def hexDigit (n : Nat) : Nat :=
  if n < 10 then 0x30 + n else 0x61 + (n - 10)

/-- The table `htmlSafeSet`: printable ASCII except the double quote, the
backslash and the three HTML characters. -/
def htmlSafe (b : Nat) : Bool :=
  0x20 ≤ b && b < 0x80 && b != 0x22 && b != 0x26 && b != 0x3C && b != 0x3E && b != 0x5C

/-- One pass of the loop of `appendString` with `escapeHTML` set, at a
non-empty `s`: the bytes written for the rune at its head, and its width. -/
def escapeStep (s : GoString) : GoString × Nat :=
  match s with
  | [] => ([], 0)
  | b :: _ =>
    if b < 0x80 then
      if htmlSafe b then ([b], 1)
      else if b = 0x5C ∨ b = 0x22 then ([0x5C, b], 1)
      else if b = 0x08 then ([0x5C, 0x62], 1)
      else if b = 0x0C then ([0x5C, 0x66], 1)
      else if b = 0x0A then ([0x5C, 0x6E], 1)
      else if b = 0x0D then ([0x5C, 0x72], 1)
      else if b = 0x09 then ([0x5C, 0x74], 1)
      else ([0x5C, 0x75, 0x30, 0x30, hexDigit (b / 16), hexDigit (b % 16)], 1)
    else if invalidHead s then ([0x5C, 0x75, 0x66, 0x66, 0x66, 0x64], 1)
    else if (decodeRune s).1 = 0x2028 ∨ (decodeRune s).1 = 0x2029 then
      ([0x5C, 0x75, 0x32, 0x30, 0x32, hexDigit ((decodeRune s).1 % 16)], (decodeRune s).2)
    else (s.take (decodeRune s).2, (decodeRune s).2)

/-- The loop of `appendString`. -/
def escapeLoop : Nat → GoString → GoString
  | 0, _ => []
  | _ + 1, [] => []
  | fuel + 1, b :: rest =>
    (escapeStep (b :: rest)).1 ++ escapeLoop fuel ((b :: rest).drop (escapeStep (b :: rest)).2)

/-- Go `appendString(dst, s, true)`: the JSON string literal for `s`.  (Go
before 1.22 writes the backspace and the form feed as `\u0008` and `\u000c`;
both forms read back as the same byte.) -/
def appendString (s : GoString) : GoString :=
  0x22 :: escapeLoop s.length s ++ [0x22]

/-- A line break followed by the indentation of `depth` levels of two spaces. -/
def indentNL (depth : Nat) : GoString :=
  0x0A :: List.replicate (2 * depth) 0x20

/-- The elements of an array, each on a line of its own at `depth`, separated
by commas. -/
def joinItems (depth : Nat) : List GoString → GoString
  | [] => []
  | [x] => indentNL depth ++ x
  | x :: xs => indentNL depth ++ x ++ 0x2C :: joinItems depth xs

/-- An indented array at `depth`; the empty array is written `[]`. -/
def jsonArray (depth : Nat) (items : List GoString) : GoString :=
  if items.isEmpty then [0x5B, 0x5D]
  else 0x5B :: joinItems (depth + 1) items ++ indentNL depth ++ [0x5D]

/-- A member of an object: the key as a string literal, a colon, a space and
the value. -/
def jsonMember (kv : GoString × GoString) : GoString :=
  appendString kv.1 ++ 0x3A :: 0x20 :: kv.2

/-- An indented object at `depth`; the empty object is written `{}`. -/
def jsonObject (depth : Nat) (members : List (GoString × GoString)) : GoString :=
  if members.isEmpty then [0x7B, 0x7D]
  else 0x7B :: joinItems (depth + 1) (members.map jsonMember) ++ indentNL depth ++ [0x7D]

/-- Go `isValidTag` on ASCII: a name is letters, digits and the punctuation
`!#$%&()*+-./:;<=>?@[]^_{|}~` and the space; bytes outside ASCII are let
through. -/
def isValidTag (name : GoString) : Bool :=
  !name.isEmpty && name.all (fun c =>
    (0x30 ≤ c && c ≤ 0x39) || (0x41 ≤ c && c ≤ 0x5A) || (0x61 ≤ c && c ≤ 0x7A) || 0x80 ≤ c ||
    (utf8 "!#$%&()*+-./:;<=>?@[]^_\x7b|\x7d~ ").contains c)

/-- The key `encoding/json` uses for a field: the name in its `json` tag (up to
the first comma) when it has a valid one, else the Go field name; `none` for a
field tagged `json:"-"`, which is left out. -/
def jsonKey (f : StructField) : Option GoString :=
  match StructTag.Lookup f.tag "json" with
  | some t =>
    if t = [0x2D] then none
    else
      let name := t.takeWhile (· != 0x2C)
      if isValidTag name then some name else some (utf8 f.name)
  | none => some (utf8 f.name)

/-- The members of a struct value: the keys of the fields that have one, with
the encoded values. -/
def structMembers (fields : List StructField) (values : List GoString) :
    List (GoString × GoString) :=
  (fields.zip values).filterMap (fun fv => (jsonKey fv.1).map (fun k => (k, fv.2)))

/-- The encoding of a `UserOrganization` at `depth`. -/
def UserOrganization.marshal (depth : Nat) (m : UserOrganization) : GoString :=
  jsonObject depth (structMembers UserOrganization.fields
    [appendString m.UserID, appendString m.OrgID, appendString m.Email])

/-- The encoding of a `[]UserOrganization` at `depth`: nil is `null`. -/
def marshalMemberships (depth : Nat) : GoSlice UserOrganization → GoString
  | none => utf8 "null"
  | some l => jsonArray depth (l.map (UserOrganization.marshal (depth + 1)))

/-- The encoding of a `User` at `depth`. -/
def User.marshal (depth : Nat) (u : User) : GoString :=
  jsonObject depth (structMembers User.fields
    [appendString u.ExternalID, marshalMemberships (depth + 1) u.Organizations])

/-- The encoding of a `[]User` with prefix `""` and indent `"  "`. -/
def marshalUsers : GoSlice User → GoString
  | none => utf8 "null"
  | some l => jsonArray 0 (l.map (User.marshal 1))

/-- Go `json.MarshalIndent(users, "", "  ")` for `users []User`: strings and
slices of structs of strings always serialize. -/
def jsonMarshalIndent (users : GoSlice User) : Except Err GoString :=
  .ok (marshalUsers users)

/-! ## Reading JSON (`encoding/json`, `scanner.go` and `decode.go`) -/

/-- A JSON value; a number keeps its literal. -/
inductive JSON where
  | null
  | bool (b : Bool)
  | num (lit : GoString)
  | str (s : GoString)
  | arr (items : List JSON)
  | obj (members : List (GoString × JSON))

/-- Go `getu4`: the code unit of a `\uXXXX` escape at the head of `s`. -/
def getu4 : GoString → Option Nat
  | 0x5C :: 0x75 :: a :: b :: c :: d :: _ =>
    match hexVal a, hexVal b, hexVal c, hexVal d with
    | some va, some vb, some vc, some vd => some (((va * 16 + vb) * 16 + vc) * 16 + vd)
    | _, _, _, _ => none
  | _ => none

/-- Go `utf16.DecodeRune` on the result of two `getu4` calls: the rune of a
surrogate pair, U+FFFD when the pair is not valid. -/
def decodeSurrogates (r1 : Nat) (r2 : Option Nat) : Nat :=
  match r2 with
  | some r2 =>
    if 0xD800 ≤ r1 ∧ r1 < 0xDC00 ∧ 0xDC00 ≤ r2 ∧ r2 < 0xE000 then
      (r1 - 0xD800) * 1024 + (r2 - 0xDC00) + 0x10000
    else RuneError
  | none => RuneError

/-- The loop of Go `unquoteBytes` over the bytes between the quotes: escapes
are replaced and the text is coerced to well-formed UTF-8.  (The function
returns its input unchanged when no byte needs rewriting; the loop gives the
same bytes then.) -/
def unquoteLoop : Nat → GoString → Option GoString
  | 0, s => if s.isEmpty then some [] else none
  | _ + 1, [] => some []
  | fuel + 1, c :: rest =>
    if c = 0x5C then
      match rest with
      | [] => none
      | e :: rest =>
        if e = 0x22 ∨ e = 0x5C ∨ e = 0x2F ∨ e = 0x27 then
          (unquoteLoop fuel rest).map (e :: ·)
        else if e = 0x62 then (unquoteLoop fuel rest).map (0x08 :: ·)
        else if e = 0x66 then (unquoteLoop fuel rest).map (0x0C :: ·)
        else if e = 0x6E then (unquoteLoop fuel rest).map (0x0A :: ·)
        else if e = 0x72 then (unquoteLoop fuel rest).map (0x0D :: ·)
        else if e = 0x74 then (unquoteLoop fuel rest).map (0x09 :: ·)
        else if e = 0x75 then
          match getu4 (c :: e :: rest) with
          | none => none
          | some rr =>
            if 0xD800 ≤ rr ∧ rr < 0xE000 then
              if decodeSurrogates rr (getu4 (rest.drop 4)) ≠ RuneError then
                (unquoteLoop fuel (rest.drop 10)).map
                  (encodeRune (decodeSurrogates rr (getu4 (rest.drop 4))) ++ ·)
              else (unquoteLoop fuel (rest.drop 4)).map (encodeRune RuneError ++ ·)
            else (unquoteLoop fuel (rest.drop 4)).map (encodeRune rr ++ ·)
        else none
    else if c = 0x22 ∨ c < 0x20 then none
    else if c < 0x80 then (unquoteLoop fuel rest).map (c :: ·)
    else
      (unquoteLoop fuel ((c :: rest).drop (decodeRune (c :: rest)).2)).map
        (encodeRune (decodeRune (c :: rest)).1 ++ ·)

/-- Go `unquote` on the bytes between the quotes of a string literal. -/
def unquote (raw : GoString) : Option GoString :=
  unquoteLoop raw.length raw

/-- The states of the scanner inside a number. -/
inductive NumState where
  | neg
  | zero
  | one
  | dot
  | dot0
  | e
  | eSign
  | e0
deriving DecidableEq, Repr

/-- The step function of the scanner, with the bytes of the literal under
way. -/
inductive Step where
  | beginValueOrEmpty
  | beginValue
  | beginStringOrEmpty
  | beginString
  | endValue
  | endTop
  | inString (raw : GoString)
  | inStringEsc (raw : GoString)
  | inStringEscU (raw : GoString) (left : Nat)
  | inLiteral (expect : GoString) (v : JSON)
  | inNumber (k : NumState) (raw : GoString)
  | error

/-- An entry of the scanner's `parseState` stack, with the values read so far:
`array` is `parseArrayValue`; `objectKey` is `parseObjectKey`, holding the key
once it is read; `objectValue` is `parseObjectValue`, holding the key whose
value is being read. -/
inductive Frame where
  | array (items : List JSON)
  | objectKey (members : List (GoString × JSON)) (key : Option GoString)
  | objectValue (members : List (GoString × JSON)) (key : Option GoString)

/-- The scanner: its step function, its stack and the top-level value once it
is complete. -/
structure Scanner where
  step : Step
  stack : List Frame
  top : Option JSON

/-- Go `isSpace`. -/
def isSpace (c : Nat) : Bool :=
  c == 0x20 || c == 0x09 || c == 0x0D || c == 0x0A

/-- A value is complete: it is stored where the stack says, and the scanner
goes on with `stateEndValue`. -/
def complete (stack : List Frame) (top : Option JSON) (v : JSON) : Scanner :=
  match stack with
  | [] => ⟨.endValue, [], some v⟩
  | .array items :: σ => ⟨.endValue, .array (items ++ [v]) :: σ, top⟩
  | .objectKey ms _ :: σ =>
    match v with
    | .str k => ⟨.endValue, .objectKey ms (some k) :: σ, top⟩
    | _ => ⟨.error, .objectKey ms none :: σ, top⟩
  | .objectValue ms (some k) :: σ => ⟨.endValue, .objectValue (ms ++ [(k, v)]) none :: σ, top⟩
  | .objectValue ms none :: σ => ⟨.error, .objectValue ms none :: σ, top⟩

/-- Go `stateEndValue`, and `stateEndTop` once the stack is empty. -/
def stateEndValue (s : Scanner) (c : Nat) : Scanner :=
  match s.stack with
  | [] => if isSpace c then { s with step := .endTop } else { s with step := .error }
  | f :: σ =>
    if isSpace c then { s with step := .endValue }
    else
      match f with
      | .objectKey ms (some k) =>
        if c = 0x3A then ⟨.beginValue, .objectValue ms (some k) :: σ, s.top⟩
        else { s with step := .error }
      | .objectValue ms none =>
        if c = 0x2C then ⟨.beginString, .objectKey ms none :: σ, s.top⟩
        else if c = 0x7D then complete σ s.top (.obj ms)
        else { s with step := .error }
      | .array items =>
        if c = 0x2C then { s with step := .beginValue }
        else if c = 0x5D then complete σ s.top (.arr items)
        else { s with step := .error }
      | _ => { s with step := .error }

/-- Go `stateBeginValue`. -/
def stateBeginValue (s : Scanner) (c : Nat) : Scanner :=
  if isSpace c then s
  else if c = 0x7B then ⟨.beginStringOrEmpty, .objectKey [] none :: s.stack, s.top⟩
  else if c = 0x5B then ⟨.beginValueOrEmpty, .array [] :: s.stack, s.top⟩
  else if c = 0x22 then { s with step := .inString [] }
  else if c = 0x2D then { s with step := .inNumber .neg [c] }
  else if c = 0x30 then { s with step := .inNumber .zero [c] }
  else if c = 0x74 then { s with step := .inLiteral [0x72, 0x75, 0x65] (.bool true) }
  else if c = 0x66 then { s with step := .inLiteral [0x61, 0x6C, 0x73, 0x65] (.bool false) }
  else if c = 0x6E then { s with step := .inLiteral [0x75, 0x6C, 0x6C] .null }
  else if 0x31 ≤ c ∧ c ≤ 0x39 then { s with step := .inNumber .one [c] }
  else { s with step := .error }

/-- Go `stateBeginString`. -/
def stateBeginString (s : Scanner) (c : Nat) : Scanner :=
  if isSpace c then s
  else if c = 0x22 then { s with step := .inString [] }
  else { s with step := .error }

/-- The end of a number at byte `c`: the number is complete and `c` is read by
`stateEndValue`. -/
def endNumber (s : Scanner) (raw : GoString) (c : Nat) : Scanner :=
  stateEndValue (complete s.stack s.top (.num raw)) c

/-- The scanner's states inside a number (`stateNeg` to `stateE0`). -/
def stateNumber (s : Scanner) (k : NumState) (raw : GoString) (c : Nat) : Scanner :=
  match k with
  | .neg =>
    if c = 0x30 then { s with step := .inNumber .zero (raw ++ [c]) }
    else if 0x31 ≤ c ∧ c ≤ 0x39 then { s with step := .inNumber .one (raw ++ [c]) }
    else { s with step := .error }
  | .one =>
    if isDigit c then { s with step := .inNumber .one (raw ++ [c]) }
    else if c = 0x2E then { s with step := .inNumber .dot (raw ++ [c]) }
    else if c = 0x65 ∨ c = 0x45 then { s with step := .inNumber .e (raw ++ [c]) }
    else endNumber s raw c
  | .zero =>
    if c = 0x2E then { s with step := .inNumber .dot (raw ++ [c]) }
    else if c = 0x65 ∨ c = 0x45 then { s with step := .inNumber .e (raw ++ [c]) }
    else endNumber s raw c
  | .dot =>
    if isDigit c then { s with step := .inNumber .dot0 (raw ++ [c]) }
    else { s with step := .error }
  | .dot0 =>
    if isDigit c then { s with step := .inNumber .dot0 (raw ++ [c]) }
    else if c = 0x65 ∨ c = 0x45 then { s with step := .inNumber .e (raw ++ [c]) }
    else endNumber s raw c
  | .e =>
    if c = 0x2B ∨ c = 0x2D then { s with step := .inNumber .eSign (raw ++ [c]) }
    else if isDigit c then { s with step := .inNumber .e0 (raw ++ [c]) }
    else { s with step := .error }
  | .eSign =>
    if isDigit c then { s with step := .inNumber .e0 (raw ++ [c]) }
    else { s with step := .error }
  | .e0 =>
    if isDigit c then { s with step := .inNumber .e0 (raw ++ [c]) }
    else endNumber s raw c

/-- One byte through the scanner. -/
def scanByte (s : Scanner) (c : Nat) : Scanner :=
  match s.step with
  | .beginValueOrEmpty =>
    if isSpace c then s
    else if c = 0x5D then stateEndValue s c
    else stateBeginValue s c
  | .beginValue => stateBeginValue s c
  | .beginStringOrEmpty =>
    if isSpace c then s
    else if c = 0x7D then
      match s.stack with
      | .objectKey ms _ :: σ => stateEndValue { s with stack := .objectValue ms none :: σ } c
      | _ => { s with step := .error }
    else stateBeginString s c
  | .beginString => stateBeginString s c
  | .endValue => stateEndValue s c
  | .endTop => if isSpace c then s else { s with step := .error }
  | .inString raw =>
    if c = 0x22 then
      match unquote raw with
      | some str => complete s.stack s.top (.str str)
      | none => { s with step := .error }
    else if c = 0x5C then { s with step := .inStringEsc (raw ++ [c]) }
    else if c < 0x20 then { s with step := .error }
    else { s with step := .inString (raw ++ [c]) }
  | .inStringEsc raw =>
    if c = 0x62 ∨ c = 0x66 ∨ c = 0x6E ∨ c = 0x72 ∨ c = 0x74 ∨ c = 0x5C ∨ c = 0x2F ∨ c = 0x22 then
      { s with step := .inString (raw ++ [c]) }
    else if c = 0x75 then { s with step := .inStringEscU (raw ++ [c]) 4 }
    else { s with step := .error }
  | .inStringEscU raw left =>
    if (hexVal c).isSome then
      if left ≤ 1 then { s with step := .inString (raw ++ [c]) }
      else { s with step := .inStringEscU (raw ++ [c]) (left - 1) }
    else { s with step := .error }
  | .inLiteral expect v =>
    match expect with
    | [] => { s with step := .error }
    | [x] => if c = x then complete s.stack s.top v else { s with step := .error }
    | x :: rest => if c = x then { s with step := .inLiteral rest v } else { s with step := .error }
  | .inNumber k raw => stateNumber s k raw c
  | .error => s

/-- The scanner run over a text. -/
def scan (s : Scanner) (data : GoString) : Scanner :=
  data.foldl scanByte s

/-- The value of a JSON text, `none` when `checkValid` rejects it: the scanner
reads every byte and then, as `eof` does, one space. -/
def parseJSON (data : GoString) : Option JSON :=
  let s := scanByte (scan ⟨.beginValue, [], none⟩ data) 0x20
  match s.step with
  | .endTop => s.top
  | _ => none

/-- Go `foldName`: ASCII letters in upper case, and the two runes that fold to
an ASCII letter (U+017F to `S`, U+212A to `K`).  Other runes are kept, which
does not change whether a folded key equals the folded name of a field, a name
being ASCII. -/
def foldName : GoString → GoString
  | [] => []
  | 0xC5 :: 0xBF :: rest => 0x53 :: foldName rest
  | 0xE2 :: 0x84 :: 0xAA :: rest => 0x4B :: foldName rest
  | c :: rest => (if 0x61 ≤ c ∧ c ≤ 0x7A then c - 0x20 else c) :: foldName rest

/-- The field an object key is stored in: the one with that key, else the
first whose folded key equals the folded key. -/
def findField (fields : List StructField) (key : GoString) : Option StructField :=
  match fields.find? (fun f => jsonKey f == some key) with
  | some f => some f
  | none => fields.find? (fun f => (jsonKey f).map foldName == some (foldName key))

/-- A JSON value decoded into a `string` that holds `old`: null leaves it. -/
def decodeString (old : GoString) : JSON → Except Err GoString
  | .str s => .ok s
  | .null => .ok old
  | _ => .error "json: cannot unmarshal into Go value of type string"

/-- A JSON array decoded into a slice holding `old`: element `i` is decoded
into the element the slice holds there, or into a zero value. -/
def decodeElems {α : Type} (zero : α) (dec : α → JSON → Except Err α) :
    List α → List JSON → Except Err (List α)
  | _, [] => .ok []
  | old, x :: xs =>
    match dec (old.headD zero) x with
    | .error e => .error e
    | .ok a =>
      match decodeElems zero dec old.tail xs with
      | .error e => .error e
      | .ok as => .ok (a :: as)

/-- The members of an object stored one by one; a key without field is
skipped. -/
def decodeMembers {α : Type} (setField : α → GoString → JSON → Except Err α) :
    α → List (GoString × JSON) → Except Err α
  | a, [] => .ok a
  | a, (k, v) :: ms =>
    match setField a k v with
    | .error e => .error e
    | .ok a => decodeMembers setField a ms

/-- The field of a `UserOrganization` for key `k` set from `v`. -/
def UserOrganization.setField (m : UserOrganization) (k : GoString) (v : JSON) :
    Except Err UserOrganization :=
  match (findField UserOrganization.fields k).map (·.name) with
  | some "UserID" => (decodeString m.UserID v).map (fun s => { m with UserID := s })
  | some "OrgID" => (decodeString m.OrgID v).map (fun s => { m with OrgID := s })
  | some "Email" => (decodeString m.Email v).map (fun s => { m with Email := s })
  | _ => .ok m

/-- A JSON value decoded into a `UserOrganization` holding `old`. -/
def UserOrganization.decode (old : UserOrganization) : JSON → Except Err UserOrganization
  | .obj ms => decodeMembers UserOrganization.setField old ms
  | .null => .ok old
  | _ => .error "json: cannot unmarshal into Go value of type main.UserOrganization"

/-- A JSON value decoded into a `[]UserOrganization` holding `old`: null gives
nil, an array a non-nil slice. -/
def decodeMemberships (old : GoSlice UserOrganization) :
    JSON → Except Err (GoSlice UserOrganization)
  | .arr xs => (decodeElems ⟨[], [], []⟩ UserOrganization.decode old.elems xs).map some
  | .null => .ok none
  | _ => .error "json: cannot unmarshal into Go value of type []main.UserOrganization"

/-- The field of a `User` for key `k` set from `v`. -/
def User.setField (u : User) (k : GoString) (v : JSON) : Except Err User :=
  match (findField User.fields k).map (·.name) with
  | some "ExternalID" => (decodeString u.ExternalID v).map (fun s => { u with ExternalID := s })
  | some "Organizations" =>
    (decodeMemberships u.Organizations v).map (fun s => { u with Organizations := s })
  | _ => .ok u

/-- A JSON value decoded into a `User` holding `old`. -/
def User.decode (old : User) : JSON → Except Err User
  | .obj ms => decodeMembers User.setField old ms
  | .null => .ok old
  | _ => .error "json: cannot unmarshal into Go value of type main.User"

/-- A JSON value decoded into a `[]User` holding `old`. -/
def decodeUsers (old : GoSlice User) : JSON → Except Err (GoSlice User)
  | .arr xs => (decodeElems ⟨[], none⟩ User.decode old.elems xs).map some
  | .null => .ok none
  | _ => .error "json: cannot unmarshal into Go value of type []main.User"

/-- Go `json.Unmarshal(data, &users)` for a nil `users []User`.  An error
stands for the one `Unmarshal` returns; the partly filled value it leaves
behind in that case is not kept. -/
def jsonUnmarshal (data : GoString) : Except Err (GoSlice User) :=
  match parseJSON data with
  | none => .error "json: syntax error"
  | some v => decodeUsers none v

/-- The user with every string coerced to well-formed UTF-8. -/
def UserOrganization.toValid (m : UserOrganization) : UserOrganization :=
  ⟨toValidUTF8 m.UserID, toValidUTF8 m.OrgID, toValidUTF8 m.Email⟩

def User.toValid (u : User) : User :=
  ⟨toValidUTF8 u.ExternalID, u.Organizations.map (List.map UserOrganization.toValid)⟩

/-- Every string of the user is well-formed UTF-8. -/
def User.valid (u : User) : Bool :=
  validUTF8 u.ExternalID &&
    u.Organizations.elems.all (fun m => validUTF8 m.UserID && validUTF8 m.OrgID && validUTF8 m.Email)

/-! ## The JSON value of a list of users -/

/-- The JSON object of a membership: the three strings under the keys of the
fields, coerced to well-formed UTF-8. -/
def UserOrganization.toJSON (m : UserOrganization) : JSON :=
  .obj ((UserOrganization.fields.filterMap jsonKey).zip
    [.str (toValidUTF8 m.UserID), .str (toValidUTF8 m.OrgID), .str (toValidUTF8 m.Email)])

/-- The JSON value of a membership list: null for nil. -/
def membershipsJSON : GoSlice UserOrganization → JSON
  | none => .null
  | some l => .arr (l.map UserOrganization.toJSON)

/-- The JSON object of a user. -/
def User.toJSON (u : User) : JSON :=
  .obj ((User.fields.filterMap jsonKey).zip
    [.str (toValidUTF8 u.ExternalID), membershipsJSON u.Organizations])

/-- The JSON value of a list of users: null for nil. -/
def usersJSON : GoSlice User → JSON
  | none => .null
  | some l => .arr (l.map User.toJSON)

/-- The value is an object whose keys are exactly `keys`, in this order. -/
def hasKeys (keys : List GoString) : JSON → Bool
  | .obj ms => ms.map (·.1) == keys
  | _ => false

/-- The value is a user object: its keys are exactly `userKeys`, and the value
under the last of them is null or an array of objects with exactly the keys
`orgKeys`. -/
def userShape (userKeys orgKeys : List GoString) : JSON → Bool
  | .obj ms =>
    ms.map (·.1) == userKeys &&
      (match ms.getLast? with
       | some (_, .arr xs) => xs.all (hasKeys orgKeys)
       | some (_, .null) => true
       | _ => false)
  | _ => false

/-- The value is an array of user objects with the given keys. -/
def usersShape (userKeys orgKeys : List GoString) : JSON → Bool
  | .arr us => us.all (userShape userKeys orgKeys)
  | _ => false

/-- The text is read as the value: from where a value may begin, in any
context, the scanner ends with the value complete. -/
def Parses (text : GoString) (v : JSON) : Prop :=
  ∀ σ top, scan ⟨.beginValue, σ, top⟩ text = complete σ top v ∧
    scan ⟨.beginValueOrEmpty, σ, top⟩ text = complete σ top v

/-! ## Theorems -/

theorem hasPrefix_append (p u : GoString) : HasPrefix (p ++ u) p = true := by
  simp [HasPrefix]

theorem matchPath_single (target k : GoString) (d : BSON) :
    matchPath target [k] d = (descend k d).any (matchLeaf target) := by
  have h : matchPath target [] = matchLeaf target := by
    funext v
    rfl
  rw [matchPath, h]

theorem matchFilter_path (p : GoString) (o : Org) :
    matchFilter (utf8 "path") p o.toBSON = (o.Path == p) := by
  have hs : splitPath (utf8 "path") = [utf8 "path"] := by decide
  have hd : descend (utf8 "path") o.toBSON = [.str o.Path] := rfl
  rw [matchFilter, hs, matchPath_single, hd]
  simp only [List.any_cons, List.any_nil, Bool.or_false, matchLeaf]

theorem descend_memberships (l : List UserOrganization) :
    descend (utf8 "orgId") (.arr (l.map UserOrganization.toBSON))
      = l.map (fun m => BSON.str m.OrgID) := by
  induction l with
  | nil => rfl
  | cons m ms ih =>
    have h : descend (utf8 "orgId") (.arr ((m :: ms).map UserOrganization.toBSON))
        = BSON.str m.OrgID :: descend (utf8 "orgId") (.arr (ms.map UserOrganization.toBSON)) := rfl
    rw [h, ih, List.map_cons]

theorem any_matchLeaf_memberships (orgId : GoString) (l : List UserOrganization) :
    (l.map (fun m => BSON.str m.OrgID)).any (matchLeaf orgId)
      = l.any (fun m => m.OrgID == orgId) := by
  induction l with
  | nil => rfl
  | cons m ms ih =>
    rw [List.map_cons, List.any_cons, List.any_cons, ih]
    rfl

theorem matchFilter_user (orgId : GoString) (u : User) :
    matchFilter (utf8 "organizations.orgId") orgId u.toBSON
      = u.Organizations.elems.any (fun m => m.OrgID == orgId) := by
  have hs : splitPath (utf8 "organizations.orgId") = [utf8 "organizations", utf8 "orgId"] := by
    decide
  obtain ⟨e, os⟩ := u
  have hd : descend (utf8 "organizations") (User.toBSON ⟨e, os⟩)
      = [sliceToBSON UserOrganization.toBSON os] := rfl
  rw [matchFilter, hs, matchPath, hd]
  simp only [List.any_cons, List.any_nil, Bool.or_false]
  rw [matchPath_single]
  cases os with
  | none => rfl
  | some l =>
    rw [sliceToBSON, descend_memberships]
    exact any_matchLeaf_memberships orgId l

theorem getOrgId_err_of_no_match (w : World) (p : GoString)
    (h : ∀ o ∈ w.orgs, o.Path ≠ p) : (getOrgId w p).2.2.isSome = true := by
  unfold getOrgId
  cases hf : w.findOneErr with
  | some e => simp
  | none =>
    have hnone : w.orgs.find? (fun o => matchFilter (utf8 "path") p o.toBSON) = none := by
      rw [List.find?_eq_none]
      intro o ho
      rw [matchFilter_path]
      simpa using h o ho
    simp [hnone]

/-! ### The paths through `main` -/

theorem main_validate_failed {fl : Flags} {w : World} {e : Err}
    (hv : w.validateErr (mongoUrl fl) = some e) :
    main (.ok fl) w = osExit [.validate (mongoUrl fl), .logError "got err"] 1 := by
  simp only [main, hv]

theorem main_panicked {fl : Flags} {w : World}
    (hv : w.validateErr (mongoUrl fl) = none) (ht : w.tlsConfig (mongoUrl fl) = false) :
    main (.ok fl) w = goPanic [.validate (mongoUrl fl)]
      "runtime error: invalid memory address or nil pointer dereference" := by
  simp only [main, hv, ht, if_true]

theorem main_connect_failed {fl : Flags} {w : World} {e : Err}
    (hv : w.validateErr (mongoUrl fl) = none) (ht : w.tlsConfig (mongoUrl fl) = true)
    (hc : w.connectErr (mongoUrl fl) = some e) :
    main (.ok fl) w = osExit [.validate (mongoUrl fl), .connect (mongoUrl fl),
      .logError "couldn't connect: %e"] 1 := by
  simp only [main, hv, ht, hc, Bool.true_eq_false, if_false]

theorem main_org_failed {fl : Flags} {w : World} {e : Err}
    (hv : w.validateErr (mongoUrl fl) = none) (ht : w.tlsConfig (mongoUrl fl) = true)
    (hc : w.connectErr (mongoUrl fl) = none)
    (ho : (getOrgId w fl.org).2.2 = some e) :
    main (.ok fl) w = osExit ([.validate (mongoUrl fl), .connect (mongoUrl fl)] ++
      (getOrgId w fl.org).1 ++ [.logError "couldn't get org id: %e"]) 1 := by
  simp only [main, hv, ht, hc, ho, Bool.true_eq_false, if_false]

theorem main_users_failed {fl : Flags} {w : World} {e : Err}
    (hv : w.validateErr (mongoUrl fl) = none) (ht : w.tlsConfig (mongoUrl fl) = true)
    (hc : w.connectErr (mongoUrl fl) = none)
    (ho : (getOrgId w fl.org).2.2 = none)
    (hu : (getUsers w (getOrgId w fl.org).2.1).2.2 = some e) :
    main (.ok fl) w = osExit ([.validate (mongoUrl fl), .connect (mongoUrl fl)] ++
      (getOrgId w fl.org).1 ++ (getUsers w (getOrgId w fl.org).2.1).1 ++
      [.logError "couldn't get users for org "]) 1 := by
  simp only [main, hv, ht, hc, ho, hu, Bool.true_eq_false, if_false]

theorem main_create_failed {fl : Flags} {w : World} {e : Err}
    (hv : w.validateErr (mongoUrl fl) = none) (ht : w.tlsConfig (mongoUrl fl) = true)
    (hc : w.connectErr (mongoUrl fl) = none)
    (ho : (getOrgId w fl.org).2.2 = none)
    (hu : (getUsers w (getOrgId w fl.org).2.1).2.2 = none)
    (hf : fl.outFile ≠ []) (hcr : w.createErr fl.outFile = some e) :
    main (.ok fl) w = osExit ([.validate (mongoUrl fl), .connect (mongoUrl fl)] ++
      (getOrgId w fl.org).1 ++ (getUsers w (getOrgId w fl.org).2.1).1 ++
      [.create fl.outFile, .logError "err creating file %s: %e"]) 1 := by
  simp only [main, hv, ht, hc, ho, hu, hcr, if_pos hf, Bool.true_eq_false, if_false]

theorem main_to_file {fl : Flags} {w : World}
    (hv : w.validateErr (mongoUrl fl) = none) (ht : w.tlsConfig (mongoUrl fl) = true)
    (hc : w.connectErr (mongoUrl fl) = none)
    (ho : (getOrgId w fl.org).2.2 = none)
    (hu : (getUsers w (getOrgId w fl.org).2.1).2.2 = none)
    (hf : fl.outFile ≠ []) (hcr : w.createErr fl.outFile = none) :
    main (.ok fl) w = returnFromMain ([.validate (mongoUrl fl), .connect (mongoUrl fl)] ++
      (getOrgId w fl.org).1 ++ (getUsers w (getOrgId w fl.org).2.1).1 ++
      .create fl.outFile ::
        exportUsers w (.file fl.outFile) (getUsers w (getOrgId w fl.org).2.1).2.1)
      [.fileClose fl.outFile, .disconnect, .cancel] := by
  simp only [main, hv, ht, hc, ho, hu, hcr, if_pos hf, Bool.true_eq_false, if_false]

theorem main_to_stdout {fl : Flags} {w : World}
    (hv : w.validateErr (mongoUrl fl) = none) (ht : w.tlsConfig (mongoUrl fl) = true)
    (hc : w.connectErr (mongoUrl fl) = none)
    (ho : (getOrgId w fl.org).2.2 = none)
    (hu : (getUsers w (getOrgId w fl.org).2.1).2.2 = none)
    (hf : fl.outFile = []) :
    main (.ok fl) w = returnFromMain ([.validate (mongoUrl fl), .connect (mongoUrl fl)] ++
      (getOrgId w fl.org).1 ++ (getUsers w (getOrgId w fl.org).2.1).1 ++
      exportUsers w .stdout (getUsers w (getOrgId w fl.org).2.1).2.1)
      [.disconnect, .cancel] := by
  have hf' : ¬ fl.outFile ≠ [] := by simp [hf]
  simp only [main, hv, ht, hc, ho, hu, if_neg hf', Bool.true_eq_false, if_false]

/-- C3, as stated, fails: with `-murl mongodb://h/?tls=false&appName=a` the
connection string is the one below, none of the listed steps fails, and the
run ends in a panic with exit status 2; a command line that `flag.Parse`
rejects also ends with status 2. -/
theorem C3_exit_code_counterexample :
    mongoUrl { defaultFlags with murl := murlWithQuery, org := utf8 "acme" } = utf8
      "mongodb://h/?tls=false&appName=a:27017/?tls=true&replicaSet=rs0&readPreference=secondaryPreferred&retryWrites=false" ∧
    (noTLSWorld failingMarshal).validateErr
      (mongoUrl { defaultFlags with murl := murlWithQuery, org := utf8 "acme" }) = none ∧
    (noTLSWorld failingMarshal).connectErr
      (mongoUrl { defaultFlags with murl := murlWithQuery, org := utf8 "acme" }) = none ∧
    (getOrgId (noTLSWorld failingMarshal) (utf8 "acme")).2.2 = none ∧
    (getUsers (noTLSWorld failingMarshal)
      (getOrgId (noTLSWorld failingMarshal) (utf8 "acme")).2.1).2.2 = none ∧
    (main (.ok { defaultFlags with murl := murlWithQuery, org := utf8 "acme" })
      (noTLSWorld failingMarshal)).exitCode = 2 ∧
    (main .failed (sampleWorld failingMarshal)).exitCode = 2 := by
  decide

/-- C3, amended: in a run in which `flag.Parse` returns and the validated
options hold a TLS configuration, the exit code of `main` is 1 exactly when
URL validation, connect, the organization lookup, the user fetch or (with a
non-empty `-file`) the file creation fails, and 0 in every other such run,
whatever `json.MarshalIndent` returns; a command line that `flag.Parse`
rejects ends the process with code 2 and `-h` with code 0. -/
theorem C3_exit_code (fl : Flags) (w : World)
    (ht : w.validateErr (mongoUrl fl) = none → w.tlsConfig (mongoUrl fl) = true) :
    ((main (.ok fl) w).exitCode = 1 ↔
      ((w.validateErr (mongoUrl fl)).isSome ∨ (w.connectErr (mongoUrl fl)).isSome ∨
        (getOrgId w fl.org).2.2.isSome ∨
        (getUsers w (getOrgId w fl.org).2.1).2.2.isSome ∨
        (fl.outFile ≠ [] ∧ (w.createErr fl.outFile).isSome))) ∧
    ((main (.ok fl) w).exitCode ≠ 1 → (main (.ok fl) w).exitCode = 0) ∧
    (main .failed w).exitCode = 2 ∧ (main .help w).exitCode = 0 := by
  refine ⟨?_, ?_, rfl, rfl⟩ <;>
  cases hv : w.validateErr (mongoUrl fl) with
  | some e => simp [main_validate_failed hv, osExit]
  | none =>
    have ht := ht hv
    cases hc : w.connectErr (mongoUrl fl) with
    | some e => simp [main_connect_failed hv ht hc, osExit]
    | none =>
      cases ho : (getOrgId w fl.org).2.2 with
      | some e => simp [main_org_failed hv ht hc ho, osExit]
      | none =>
        cases hu : (getUsers w (getOrgId w fl.org).2.1).2.2 with
        | some e => simp [main_users_failed hv ht hc ho hu, osExit]
        | none =>
          by_cases hf : fl.outFile = []
          · simp [main_to_stdout hv ht hc ho hu hf, hf, returnFromMain]
          · cases hcr : w.createErr fl.outFile with
            | some e => simp [main_create_failed hv ht hc ho hu hf hcr, hf, osExit]
            | none => simp [main_to_file hv ht hc ho hu hf hcr, hf, returnFromMain]

/-- C3, amended, on the sample store: with every step succeeding and a
serializer that fails the exit code is 0, and with the organization path
`ghost` it is 1. -/
theorem C3_exit_code_witness :
    (main (.ok { defaultFlags with org := utf8 "acme" }) (sampleWorld failingMarshal)).exitCode
      = 0 ∧
    (main (.ok { defaultFlags with org := utf8 "ghost" }) (sampleWorld failingMarshal)).exitCode
      = 1 :=
  ⟨(C3_exit_code { defaultFlags with org := utf8 "acme" } (sampleWorld failingMarshal)
      (fun _ => rfl)).2.1 (by decide),
   (C3_exit_code { defaultFlags with org := utf8 "ghost" } (sampleWorld failingMarshal)
      (fun _ => rfl)).1.mpr (by decide)⟩

theorem getOrgId_trace (w : World) (p : GoString) :
    (getOrgId w p).1 = [.findOne ORGS (utf8 "path") p] := by
  unfold getOrgId
  cases w.findOneErr with
  | some e => rfl
  | none =>
    cases w.orgs.find? (fun o => matchFilter (utf8 "path") p o.toBSON) with
    | none => rfl
    | some o => rfl

/-- C4: when no organization has the given path, `getOrgId` returns an error;
a run of `main` with that path has no event of the user fetch, creates, writes
and closes no output, and does not end with code 0; and a run in which
`getOrgId` is invoked (validation and connect have succeeded and the options
hold a TLS configuration) exits with code 1. -/
theorem C4_org_not_found (fl : Flags) (w : World)
    (h : ∀ o ∈ w.orgs, o.Path ≠ fl.org) :
    (getOrgId w fl.org).2.2.isSome = true ∧
    (main (.ok fl) w).trace.any Event.isFetch = false ∧
    (main (.ok fl) w).trace.any Event.isOutput = false ∧
    writes (main (.ok fl) w).trace = [] ∧
    (main (.ok fl) w).exitCode ≠ 0 ∧
    (.findOne ORGS (utf8 "path") fl.org ∈ (main (.ok fl) w).trace →
      (main (.ok fl) w).exitCode = 1) ∧
    (w.validateErr (mongoUrl fl) = none → w.tlsConfig (mongoUrl fl) = true →
      w.connectErr (mongoUrl fl) = none →
      .findOne ORGS (utf8 "path") fl.org ∈ (main (.ok fl) w).trace ∧
      (main (.ok fl) w).exitCode = 1) := by
  have herr := getOrgId_err_of_no_match w fl.org h
  refine ⟨herr, ?_⟩
  cases hv : w.validateErr (mongoUrl fl) with
  | some e =>
    rw [main_validate_failed hv]
    simp [osExit, Event.isFetch, Event.isOutput, writes]
  | none =>
    cases ht : w.tlsConfig (mongoUrl fl) with
    | false =>
      rw [main_panicked hv ht]
      simp [goPanic, Event.isFetch, Event.isOutput, writes]
    | true =>
      cases hc : w.connectErr (mongoUrl fl) with
      | some e =>
        rw [main_connect_failed hv ht hc]
        simp [osExit, Event.isFetch, Event.isOutput, writes]
      | none =>
        cases ho : (getOrgId w fl.org).2.2 with
        | none => simp [ho] at herr
        | some e =>
          rw [main_org_failed hv ht hc ho, getOrgId_trace]
          simp [osExit, Event.isFetch, Event.isOutput, writes]

/-- C4, at the organization path `ghost` with an output file requested,
against a store whose only organization has the path `acme`. -/
theorem C4_org_not_found_witness :
    (∀ o ∈ (sampleWorld failingMarshal).orgs, o.Path ≠ utf8 "ghost") ∧
    (getOrgId (sampleWorld failingMarshal) (utf8 "ghost")).2.2.isSome = true ∧
    writes (main (.ok { defaultFlags with org := utf8 "ghost", outFile := utf8 "out.json" })
      (sampleWorld failingMarshal)).trace = [] ∧
    (main (.ok { defaultFlags with org := utf8 "ghost", outFile := utf8 "out.json" })
      (sampleWorld failingMarshal)).exitCode = 1 :=
  have h : ∀ o ∈ (sampleWorld failingMarshal).orgs, o.Path ≠ utf8 "ghost" := by decide
  have t := C4_org_not_found
    { defaultFlags with org := utf8 "ghost", outFile := utf8 "out.json" }
    (sampleWorld failingMarshal) h
  ⟨h, t.1, t.2.2.2.1, (t.2.2.2.2.2.2 rfl rfl rfl).2⟩

/-- C5: when the find and decode steps do not fail, `getUsers` returns without
error exactly the stored users that have a membership in the organization, in
store order and each as often as it is stored; users without such a membership
(those with no membership at all among them) are not returned, and when no user
matches the result has no elements. -/
theorem C5_getUsers_filter (w : World) (orgId : GoString)
    (hf : w.findErr = none) (ha : w.allErr = none) :
    (getUsers w orgId).2.2 = none ∧
    (getUsers w orgId).2.1.elems
      = w.users.filter (fun u => u.Organizations.elems.any (fun m => m.OrgID == orgId)) ∧
    (∀ u, u ∈ (getUsers w orgId).2.1.elems ↔
      u ∈ w.users ∧ ∃ m ∈ u.Organizations.elems, m.OrgID = orgId) ∧
    (∀ u, u.Organizations.elems = [] → u ∉ (getUsers w orgId).2.1.elems) ∧
    ((∀ u ∈ w.users, ∀ m ∈ u.Organizations.elems, m.OrgID ≠ orgId) →
      (getUsers w orgId).2.1.elems = []) := by
  have hfun : (fun u : User => matchFilter (utf8 "organizations.orgId") orgId u.toBSON)
      = (fun u => u.Organizations.elems.any (fun m => m.OrgID == orgId)) := by
    funext u
    exact matchFilter_user orgId u
  have helems : (getUsers w orgId).2.1.elems
      = w.users.filter (fun u => u.Organizations.elems.any (fun m => m.OrgID == orgId)) := by
    simp only [getUsers, hf, ha, hfun, cursorAll]
    split
    · rename_i hcond
      simp only [Bool.and_eq_true, List.isEmpty_iff] at hcond
      rw [hcond.1]
      rfl
    · rfl
  refine ⟨by simp only [getUsers, hf, ha], helems, ?_, ?_, ?_⟩
  · intro u
    rw [helems]
    simp [List.mem_filter]
  · intro u hu
    rw [helems]
    simp [List.mem_filter, hu]
  · intro hno
    rw [helems, List.filter_eq_nil_iff]
    intro u hu
    simp only [List.any_eq_true, beq_iff_eq, not_exists, not_and]
    intro m hm
    exact hno u hu m hm

/-- C5, on the sample store: of the four users, the one with a single matching
membership and the one with two memberships are returned, once each. -/
theorem C5_getUsers_filter_witness :
    (sampleWorld failingMarshal).findErr = none ∧
    (getUsers (sampleWorld failingMarshal) (utf8 "org_123")).2.1.elems = [userOne, userTwo] :=
  ⟨rfl, (C5_getUsers_filter (sampleWorld failingMarshal) (utf8 "org_123") rfl rfl).2.1.trans
    (by decide)⟩

/-! ### Decimal numerals -/

theorem fmtDigits_append (fuel u : Nat) (acc : GoString) :
    fmtDigits fuel u acc = fmtDigits fuel u [] ++ acc := by
  induction fuel generalizing u acc with
  | zero => rfl
  | succ n ih =>
    simp only [fmtDigits]
    split
    · rw [ih _ (_ :: acc), ih _ [_]]
      simp
    · rfl

/-- The digits written for `u`: decimal digits, the first not zero unless `u`
is zero, and read from the left they give `u`. -/
theorem fmtDigits_spec (fuel u : Nat) (h : u ≤ fuel) :
    ∃ d rest, fmtDigits fuel u [] = d :: rest ∧ (d :: rest).all isDigit = true ∧
      (u ≠ 0 → d ≠ 0x30) ∧ (u = 0 → rest = []) ∧
      (d :: rest).foldl (fun a x => a * 10 + (x - 0x30)) 0 = u := by
  induction fuel generalizing u with
  | zero =>
    have hu : u = 0 := by omega
    subst hu
    exact ⟨0x30, [], rfl, by decide, by simp, by simp, by decide⟩
  | succ n ih =>
    by_cases h10 : u ≥ 10
    · obtain ⟨d, rest, hd, hall, hnz, _, hval⟩ := ih (u / 10) (by omega)
      have heq : fmtDigits (n + 1) u [] = d :: (rest ++ [0x30 + (u - u / 10 * 10)]) := by
        simp only [fmtDigits, if_pos h10]
        rw [fmtDigits_append, hd]
        rfl
      refine ⟨d, rest ++ [0x30 + (u - u / 10 * 10)], heq, ?_, ?_, ?_, ?_⟩
      · have hlast : isDigit (0x30 + (u - u / 10 * 10)) = true := by
          simp only [isDigit, Bool.and_eq_true, decide_eq_true_eq]
          omega
        simp only [List.all_cons, List.all_append, List.all_nil, Bool.and_true] at hall ⊢
        simp [hall, hlast]
      · intro _
        exact hnz (by omega)
      · intro h0
        omega
      · rw [← List.cons_append, List.foldl_append, hval]
        simp only [List.foldl_cons, List.foldl_nil]
        omega
    · have heq : fmtDigits (n + 1) u [] = [0x30 + u] := by
        simp only [fmtDigits, if_neg h10]
      refine ⟨0x30 + u, [], heq, ?_, by omega, by simp, ?_⟩
      · simp only [List.all_cons, List.all_nil, Bool.and_true, isDigit, Bool.and_eq_true,
          decide_eq_true_eq]
        omega
      · simp

/-- The text `%d` prints for `n` is a decimal numeral in the usual form that
stands for `n`. -/
theorem fmtInteger_decimal (n : Int) :
    decimalValue (fmtInteger n) = some n ∧ canonicalDecimal (fmtInteger n) = true := by
  obtain ⟨d, rest, hd, hall, hnz, hz, hval⟩ := fmtDigits_spec n.natAbs n.natAbs (Nat.le_refl _)
  have hdig : isDigit d = true := by
    simp only [List.all_cons, Bool.and_eq_true] at hall
    exact hall.1
  have hd45 : d ≠ 0x2D := by
    simp only [isDigit, Bool.and_eq_true, decide_eq_true_eq] at hdig
    omega
  have hdv : digitsValue (d :: rest) = some n.natAbs := by
    simp only [digitsValue, List.isEmpty_cons, hall, Bool.not_true, Bool.or_self,
      Bool.false_eq_true, if_false, hval]
  by_cases hneg : n < 0
  · have hne : n.natAbs ≠ 0 := by omega
    have hval' : -Int.ofNat n.natAbs = n := by
      show -(n.natAbs : Int) = n
      omega
    simp only [fmtInteger, if_pos hneg, hd, decimalValue, if_true, hdv, Option.map_some',
      canonicalDecimal, hval']
    exact ⟨trivial, by simpa using hnz hne⟩
  · have hval' : Int.ofNat n.natAbs = n := by
      show (n.natAbs : Int) = n
      omega
    simp only [fmtInteger, if_neg hneg, hd, decimalValue, if_neg hd45, hdv, Option.map_some',
      canonicalDecimal, hval']
    refine ⟨trivial, ?_⟩
    by_cases h0 : n.natAbs = 0
    · simp [hz h0]
    · simp [hnz h0]

theorem fmtDigits_fuel (f1 f2 u : Nat) (h1 : u ≤ f1) (h2 : u ≤ f2) (acc : GoString) :
    fmtDigits f1 u acc = fmtDigits f2 u acc := by
  induction f1 generalizing f2 u acc with
  | zero =>
    have hu : u = 0 := by omega
    subst hu
    cases f2 with
    | zero => rfl
    | succ m => simp [fmtDigits]
  | succ n ih =>
    cases f2 with
    | zero =>
      have hu : u = 0 := by omega
      subst hu
      simp [fmtDigits]
    | succ m =>
      simp only [fmtDigits]
      split
      · exact ih m (u / 10) (by omega) (by omega) _
      · rfl

/-- A sequence of decimal digits without a leading zero is the one written for
the number it stands for. -/
theorem fmtDigits_unique (ds : GoString) (hne : ds ≠ [])
    (hall : ds.all isDigit = true) (hlead : 2 ≤ ds.length → ds.head? ≠ some 0x30) :
    ds = fmtDigits (ds.foldl (fun a x => a * 10 + (x - 0x30)) 0)
      (ds.foldl (fun a x => a * 10 + (x - 0x30)) 0) [] := by
  induction ds using List.reverseRecOn with
  | nil => exact absurd rfl hne
  | append_singleton init x ih =>
    have hx : isDigit x = true := by
      simp only [List.all_append, List.all_cons, List.all_nil, Bool.and_true,
        Bool.and_eq_true] at hall
      exact hall.2
    simp only [isDigit, Bool.and_eq_true, decide_eq_true_eq] at hx
    rw [List.foldl_append]
    simp only [List.foldl_cons, List.foldl_nil]
    cases init with
    | nil =>
      simp only [List.foldl_nil, List.nil_append, Nat.zero_mul, Nat.zero_add]
      cases hk : x - 0x30 with
      | zero =>
        have : x = 0x30 := by omega
        rw [this]
        rfl
      | succ k =>
        have h10 : ¬ (k + 1 ≥ 10) := by omega
        simp only [fmtDigits, if_neg h10]
        congr 1
        omega
    | cons c cs =>
      have hall' : (c :: cs).all isDigit = true := by
        simp only [List.all_append, Bool.and_eq_true] at hall
        exact hall.1
      have hc0 : c ≠ 0x30 := by
        have := hlead (by simp)
        simpa using this
      have ih' := ih (by simp) hall' (fun _ => by simpa using hc0)
      generalize hq : (c :: cs).foldl (fun a x => a * 10 + (x - 0x30)) 0 = q at ih' ⊢
      have hq0 : q ≠ 0 := by
        intro h0
        rw [h0] at ih'
        have : c = 0x30 := by
          have h := congrArg List.head? ih'
          simpa [fmtDigits] using h
        exact hc0 this
      have hv10 : q * 10 + (x - 0x30) ≥ 10 := by omega
      obtain ⟨k, hk⟩ : ∃ k, q * 10 + (x - 0x30) = k + 1 := ⟨q * 10 + (x - 0x30) - 1, by omega⟩
      have hdiv : (q * 10 + (x - 0x30)) / 10 = q := by omega
      have hlast : 0x30 + (q * 10 + (x - 0x30) - q * 10) = x := by
        omega
      have hstep : fmtDigits (k + 1) (q * 10 + (x - 0x30)) []
          = fmtDigits k q [] ++ [x] := by
        simp only [fmtDigits, if_pos hv10]
        rw [fmtDigits_append, hdiv, hlast]
      rw [hk] at hstep ⊢
      rw [hstep, fmtDigits_fuel k q q (by omega) (Nat.le_refl _), ← ih']

/-- The text `%d` prints for `n` is the only decimal numeral in the usual form
that stands for `n`. -/
theorem fmtInteger_unique (s : GoString) (n : Int)
    (hc : canonicalDecimal s = true) (hv : decimalValue s = some n) : s = fmtInteger n := by
  cases s with
  | nil => simp [decimalValue] at hv
  | cons c ds =>
    by_cases hneg : c = 0x2D
    · subst hneg
      simp only [decimalValue, if_true] at hv
      simp only [canonicalDecimal, if_true] at hc
      cases ds with
      | nil => simp at hc
      | cons d rest =>
        simp only [bne_iff_ne, ne_eq] at hc
        cases hdv : digitsValue (d :: rest) with
        | none => simp [hdv] at hv
        | some v =>
          simp only [hdv, Option.map_some', Option.some.injEq] at hv
          simp only [digitsValue, List.isEmpty_cons, Bool.false_or] at hdv
          split at hdv
          · cases hdv
          · rename_i hall
            simp only [Bool.not_eq_true, Bool.not_eq_false'] at hall
            simp only [Option.some.injEq] at hdv
            have hu := fmtDigits_unique (d :: rest) (by simp) (by simpa using hall)
              (fun _ => by simpa using hc)
            rw [hdv] at hu
            have hv0 : v ≠ 0 := by
              intro h0
              rw [h0] at hu
              have h := congrArg List.head? hu
              simp [fmtDigits] at h
              exact hc h
            have hn : n < 0 := by
              rw [← hv]
              show -(v : Int) < 0
              omega
            have hab : n.natAbs = v := by
              rw [← hv]
              show (-(v : Int)).natAbs = v
              omega
            simp only [fmtInteger, if_pos hn, hab]
            rw [← hu]
    · simp only [decimalValue, if_neg hneg] at hv
      simp only [canonicalDecimal, if_neg hneg, Bool.or_eq_true, bne_iff_ne, ne_eq,
        List.isEmpty_iff] at hc
      cases hdv : digitsValue (c :: ds) with
      | none => simp [hdv] at hv
      | some v =>
        simp only [hdv, Option.map_some', Option.some.injEq] at hv
        simp only [digitsValue, List.isEmpty_cons, Bool.false_or] at hdv
        split at hdv
        · cases hdv
        · rename_i hall
          simp only [Bool.not_eq_true, Bool.not_eq_false'] at hall
          simp only [Option.some.injEq] at hdv
          have hu := fmtDigits_unique (c :: ds) (by simp) (by simpa using hall)
            (fun hlen => by
              rcases hc with hc | hc
              · simpa using hc
              · rw [hc] at hlen
                simp at hlen)
          rw [hdv] at hu
          have hn : ¬ n < 0 := by
            rw [← hv]
            show ¬ (v : Int) < 0
            omega
          have hab : n.natAbs = v := by
            rw [← hv]
            show ((v : Int)).natAbs = v
            omega
          simp only [fmtInteger, if_neg hn, hab]
          exact hu

/-- C6: the connection string is the normalised URL, a colon, the port in
decimal, a slash and the fixed options, where the normalised URL is the given
one if it starts with `mongodb://` and `mongodb://` followed by the given one
otherwise, and the port in decimal is the one numeral in the usual form that
stands for the port; the string starts with `mongodb://`, ends with the
options, and does not depend on the database name.  The defaults give the
string of the claim. -/
theorem C6_connection_string (fl : Flags) :
    mongoUrl fl
      = (if HasPrefix fl.murl MONGO_PREFIX then fl.murl else MONGO_PREFIX ++ fl.murl)
        ++ utf8 ":" ++ fmtInteger fl.mport ++ utf8 "/" ++ MONGO_OPTS ∧
    (HasPrefix fl.murl MONGO_PREFIX = true ↔ ∃ t, fl.murl = utf8 "mongodb://" ++ t) ∧
    decimalValue (fmtInteger fl.mport) = some fl.mport ∧
    canonicalDecimal (fmtInteger fl.mport) = true ∧
    (∀ s, canonicalDecimal s = true → decimalValue s = some fl.mport →
      s = fmtInteger fl.mport) ∧
    HasPrefix (mongoUrl fl) MONGO_PREFIX = true ∧
    MONGO_OPTS <:+ mongoUrl fl ∧
    MONGO_OPTS
      = utf8 "?tls=true&replicaSet=rs0&readPreference=secondaryPreferred&retryWrites=false" ∧
    MONGO_PREFIX = [0x6D, 0x6F, 0x6E, 0x67, 0x6F, 0x64, 0x62, 0x3A, 0x2F, 0x2F] ∧
    (∀ db, mongoUrl { fl with mdb := db } = mongoUrl fl) ∧
    (∀ w, (main (.ok fl) w).trace.head? = some (.validate (mongoUrl fl))) ∧
    mongoUrl defaultFlags = utf8
      "mongodb://localhost:27017/?tls=true&replicaSet=rs0&readPreference=secondaryPreferred&retryWrites=false" ∧
    mongoUrl { defaultFlags with murl := utf8 "db.example", mport := 8080 } = utf8
      "mongodb://db.example:8080/?tls=true&replicaSet=rs0&readPreference=secondaryPreferred&retryWrites=false" ∧
    mongoUrl { defaultFlags with murl := utf8 "h", mport := -5 } = utf8
      "mongodb://h:-5/?tls=true&replicaSet=rs0&readPreference=secondaryPreferred&retryWrites=false" ∧
    murlWithScheme (utf8 "mongodb+srv://h") = utf8 "mongodb://mongodb+srv://h" ∧
    murlWithScheme (utf8 "MongoDB://h") = utf8 "mongodb://MongoDB://h" := by
  have hcolon : utf8 ":" = [0x3A] := by decide
  have hslash : utf8 "/" = [0x2F] := by decide
  refine ⟨?_, ?_, (fmtInteger_decimal fl.mport).1, (fmtInteger_decimal fl.mport).2,
    fun s hc hv => fmtInteger_unique s fl.mport hc hv, ?_, ?_, rfl, by decide,
    fun _ => rfl, ?_,
    by decide, by decide, by decide, by decide, by decide⟩
  · simp only [mongoUrl, Sprintf_s_d_s, murlWithScheme, hcolon, hslash]
    cases HasPrefix fl.murl MONGO_PREFIX <;> simp
  · simp only [HasPrefix, List.isPrefixOf_iff_prefix]
    constructor
    · rintro ⟨t, ht⟩
      exact ⟨t, ht.symm⟩
    · rintro ⟨t, ht⟩
      exact ⟨t, ht.symm⟩
  · simp only [mongoUrl, Sprintf_s_d_s, murlWithScheme]
    cases h : HasPrefix fl.murl MONGO_PREFIX
    · simp only [Bool.not_false, if_true, List.append_assoc]
      exact hasPrefix_append _ _
    · simp only [Bool.not_true, Bool.false_eq_true, if_false, List.append_assoc]
      simp only [HasPrefix] at h ⊢
      rw [List.isPrefixOf_iff_prefix] at h ⊢
      exact h.trans (List.prefix_append _ _)
  · simp only [mongoUrl, Sprintf_s_d_s]
    exact List.suffix_append _ _
  · intro w
    cases hv : w.validateErr (mongoUrl fl) with
    | some e => rw [main_validate_failed hv]; rfl
    | none =>
      cases ht : w.tlsConfig (mongoUrl fl) with
      | false => rw [main_panicked hv ht]; rfl
      | true =>
        cases hc : w.connectErr (mongoUrl fl) with
        | some e => rw [main_connect_failed hv ht hc]; rfl
        | none =>
          cases ho : (getOrgId w fl.org).2.2 with
          | some e => rw [main_org_failed hv ht hc ho]; rfl
          | none =>
            cases hu : (getUsers w (getOrgId w fl.org).2.1).2.2 with
            | some e => rw [main_users_failed hv ht hc ho hu]; rfl
            | none =>
              by_cases hf : fl.outFile = []
              · rw [main_to_stdout hv ht hc ho hu hf]; rfl
              · cases hcr : w.createErr fl.outFile with
                | some e => rw [main_create_failed hv ht hc ho hu hf hcr]; rfl
                | none => rw [main_to_file hv ht hc ho hu hf hcr]; rfl

/-- C7: the prefix step of `main` is idempotent, and leaves a URL that already
starts with `mongodb://` unchanged. -/
theorem C7_scheme_idempotent :
    (∀ u, murlWithScheme (murlWithScheme u) = murlWithScheme u) ∧
    (∀ u, HasPrefix u MONGO_PREFIX = true → murlWithScheme u = u) := by
  have h2 : ∀ u, HasPrefix u MONGO_PREFIX = true → murlWithScheme u = u := by
    intro u hu
    simp [murlWithScheme, hu]
  refine ⟨fun u => ?_, h2⟩
  apply h2
  unfold murlWithScheme
  cases h : HasPrefix u MONGO_PREFIX
  · simpa using hasPrefix_append MONGO_PREFIX u
  · simpa using h

/-- C7, at the default URL and at a bare host name. -/
theorem C7_scheme_idempotent_witness :
    murlWithScheme (utf8 "mongodb://localhost") = utf8 "mongodb://localhost" ∧
    murlWithScheme (murlWithScheme (utf8 "db.example"))
      = murlWithScheme (utf8 "db.example") :=
  ⟨C7_scheme_idempotent.2 (utf8 "mongodb://localhost") (by decide),
   C7_scheme_idempotent.1 (utf8 "db.example")⟩

/-- C8, at the failing input: with the organization path `ghost` the connection
is opened, the lookup fails, and the run ends through `os.Exit(1)` without the
deferred `client.Disconnect`. -/
theorem C8_exit_skips_disconnect :
    (main (.ok { defaultFlags with org := utf8 "ghost" }) (sampleWorld failingMarshal)).trace
      = [.validate (mongoUrl defaultFlags), .connect (mongoUrl defaultFlags),
         .findOne ORGS (utf8 "path") (utf8 "ghost"),
         .logError "couldn't get org id: %e", .exit 1] ∧
    Event.disconnect ∉
      (main (.ok { defaultFlags with org := utf8 "ghost" })
        (sampleWorld failingMarshal)).trace := by
  decide

theorem getUsers_no_disconnect (w : World) (orgId : GoString) :
    Event.disconnect ∉ (getUsers w orgId).1 := by
  unfold getUsers
  cases w.findErr with
  | some e => simp
  | none =>
    cases w.allErr with
    | some e => simp
    | none => simp

theorem exportUsers_no_disconnect (w : World) (d : Dest) (us : GoSlice User) :
    Event.disconnect ∉ exportUsers w d us := by
  unfold exportUsers
  cases w.marshalIndent us with
  | error e => simp
  | ok t => simp

/-- The deferred `client.Disconnect` runs exactly in the runs that return from
`main`: once `flag.Parse` has returned, a run calls it if and only if it ends
with exit code 0, and no run that ends through `os.Exit(1)` or in a panic
does, also when the connection was opened. -/
theorem disconnect_iff_normal_return (fl : Flags) (w : World) :
    Event.disconnect ∈ (main (.ok fl) w).trace ↔ (main (.ok fl) w).exitCode = 0 := by
  have ho := getOrgId_trace w fl.org
  have hu := getUsers_no_disconnect w (getOrgId w fl.org).2.1
  cases hv : w.validateErr (mongoUrl fl) with
  | some e => simp [main_validate_failed hv, osExit]
  | none =>
    cases ht : w.tlsConfig (mongoUrl fl) with
    | false => simp [main_panicked hv ht, goPanic]
    | true =>
      cases hc : w.connectErr (mongoUrl fl) with
      | some e => simp [main_connect_failed hv ht hc, osExit]
      | none =>
        cases ho' : (getOrgId w fl.org).2.2 with
        | some e => simp [main_org_failed hv ht hc ho', osExit, ho]
        | none =>
          cases hu' : (getUsers w (getOrgId w fl.org).2.1).2.2 with
          | some e => simp [main_users_failed hv ht hc ho' hu', osExit, ho, hu]
          | none =>
            by_cases hf : fl.outFile = []
            · simp [main_to_stdout hv ht hc ho' hu' hf, returnFromMain]
            · cases hcr : w.createErr fl.outFile with
              | some e => simp [main_create_failed hv ht hc ho' hu' hf hcr, osExit, ho, hu]
              | none => simp [main_to_file hv ht hc ho' hu' hf hcr, returnFromMain]

/-- C9: when the find step returns a cursor, `getUsers` closes it exactly once,
after `cursor.All` and as its last effect, whether or not decoding succeeds;
when the find step fails, its error is returned and no cursor call is made. -/
theorem C9_cursor_closed_once (w : World) (orgId : GoString) :
    (w.findErr = none →
      (getUsers w orgId).1
        = [.find USERS (utf8 "organizations.orgId") orgId, .cursorAll, .cursorClose] ∧
      (getUsers w orgId).1.count .cursorClose = 1 ∧
      (getUsers w orgId).2.2 = w.allErr) ∧
    (∀ e, w.findErr = some e →
      (getUsers w orgId).1 = [.find USERS (utf8 "organizations.orgId") orgId] ∧
      (getUsers w orgId).1.count .cursorClose = 0 ∧
      (getUsers w orgId).2.2 = some e) := by
  constructor
  · intro hf
    cases ha : w.allErr with
    | some e => simp [getUsers, hf, ha]
    | none => simp [getUsers, hf, ha]
  · intro e hf
    simp [getUsers, hf]

/-- C9, on the sample store with decoding succeeding, with decoding failing,
and with the find step failing. -/
theorem C9_cursor_closed_once_witness :
    (getUsers (sampleWorld failingMarshal) (utf8 "org_123")).1.count .cursorClose = 1 ∧
    (getUsers { sampleWorld failingMarshal with allErr := some "decode" }
      (utf8 "org_123")).1.count .cursorClose = 1 ∧
    (getUsers { sampleWorld failingMarshal with findErr := some "timeout" }
      (utf8 "org_123")).1.count .cursorClose = 0 :=
  ⟨((C9_cursor_closed_once (sampleWorld failingMarshal) (utf8 "org_123")).1 rfl).2.1,
   ((C9_cursor_closed_once { sampleWorld failingMarshal with allErr := some "decode" }
      (utf8 "org_123")).1 rfl).2.1,
   ((C9_cursor_closed_once { sampleWorld failingMarshal with findErr := some "timeout" }
      (utf8 "org_123")).2 "timeout" rfl).2.1⟩

/-- The shape of a valid multi-byte encoding at the head of a string. -/
theorem decodeRune_cases {b : Nat} {rest : GoString} (hb : 0x80 ≤ b)
    (hv : invalidHead (b :: rest) = false) :
    (∃ b1 t, rest = b1 :: t ∧ 0xC2 ≤ b ∧ b < 0xE0 ∧ 0x80 ≤ b1 ∧ b1 ≤ 0xBF ∧
      decodeRune (b :: rest) = (b % 32 * 64 + b1 % 64, 2)) ∨
    (∃ b1 b2 t, rest = b1 :: b2 :: t ∧ 0xE0 ≤ b ∧ b < 0xF0 ∧ 0x80 ≤ b1 ∧ b1 ≤ 0xBF ∧
      (b = 0xE0 → 0xA0 ≤ b1) ∧ (b = 0xED → b1 ≤ 0x9F) ∧ 0x80 ≤ b2 ∧ b2 ≤ 0xBF ∧
      decodeRune (b :: rest) = (b % 16 * 4096 + b1 % 64 * 64 + b2 % 64, 3)) ∨
    (∃ b1 b2 b3 t, rest = b1 :: b2 :: b3 :: t ∧ 0xF0 ≤ b ∧ b ≤ 0xF4 ∧ 0x80 ≤ b1 ∧ b1 ≤ 0xBF ∧
      (b = 0xF0 → 0x90 ≤ b1) ∧ (b = 0xF4 → b1 ≤ 0x8F) ∧ 0x80 ≤ b2 ∧ b2 ≤ 0xBF ∧
      0x80 ≤ b3 ∧ b3 ≤ 0xBF ∧
      decodeRune (b :: rest)
        = (b % 8 * 262144 + b1 % 64 * 4096 + b2 % 64 * 64 + b3 % 64, 4)) := by
  have hbad : ∀ {s : GoString}, decodeRune s = (RuneError, 1) → invalidHead s = true := by
    intro s hs
    simp [invalidHead, hs]
  have h0 : ¬ b < 0x80 := by omega
  by_cases h1 : b < 0xC2 ∨ 0xF4 < b
  · have : decodeRune (b :: rest) = (RuneError, 1) := by simp [decodeRune, h0, h1]
    rw [hbad this] at hv
    cases hv
  cases rest with
  | nil =>
    have : decodeRune [b] = (RuneError, 1) := by simp [decodeRune, h0, h1]
    rw [hbad this] at hv
    cases hv
  | cons b1 t =>
    by_cases h2 : b1 < (if b = 0xE0 then 0xA0 else if b = 0xF0 then 0x90 else 0x80) ∨
        (if b = 0xED then 0x9F else if b = 0xF4 then 0x8F else 0xBF) < b1
    · have : decodeRune (b :: b1 :: t) = (RuneError, 1) := by simp [decodeRune, h0, h1, h2]
      rw [hbad this] at hv
      cases hv
    have hb1 : 0x80 ≤ b1 ∧ b1 ≤ 0xBF ∧ (b = 0xE0 → 0xA0 ≤ b1) ∧ (b = 0xED → b1 ≤ 0x9F) ∧
        (b = 0xF0 → 0x90 ≤ b1) ∧ (b = 0xF4 → b1 ≤ 0x8F) := by
      split_ifs at h2 <;> omega
    by_cases h3 : b < 0xE0
    · left
      refine ⟨b1, t, rfl, by omega, h3, hb1.1, hb1.2.1, ?_⟩
      simp [decodeRune, h0, h1, h2, h3]
    cases t with
    | nil =>
      have : decodeRune [b, b1] = (RuneError, 1) := by simp [decodeRune, h0, h1, h2, h3]
      rw [hbad this] at hv
      cases hv
    | cons b2 t =>
      by_cases h4 : b2 < 0x80 ∨ 0xBF < b2
      · have : decodeRune (b :: b1 :: b2 :: t) = (RuneError, 1) := by
          simp [decodeRune, h0, h1, h2, h3, h4]
        rw [hbad this] at hv
        cases hv
      by_cases h5 : b < 0xF0
      · right; left
        refine ⟨b1, b2, t, rfl, by omega, h5, hb1.1, hb1.2.1, hb1.2.2.1, hb1.2.2.2.1,
          by omega, by omega, ?_⟩
        simp [decodeRune, h0, h1, h2, h3, h4, h5]
      cases t with
      | nil =>
        have : decodeRune [b, b1, b2] = (RuneError, 1) := by
          simp [decodeRune, h0, h1, h2, h3, h4, h5]
        rw [hbad this] at hv
        cases hv
      | cons b3 t =>
        by_cases h6 : b3 < 0x80 ∨ 0xBF < b3
        · have : decodeRune (b :: b1 :: b2 :: b3 :: t) = (RuneError, 1) := by
            simp [decodeRune, h0, h1, h2, h3, h4, h5, h6]
          rw [hbad this] at hv
          cases hv
        right; right
        refine ⟨b1, b2, b3, t, rfl, by omega, by omega, hb1.1, hb1.2.1, hb1.2.2.2.2.1,
          hb1.2.2.2.2.2, by omega, by omega, by omega, by omega, ?_⟩
        simp [decodeRune, h0, h1, h2, h3, h4, h5, h6]

/-- A valid multi-byte encoding at the head of a string: its bytes are all
above the ASCII range, encoding the decoded rune gives them back, and decoding
them gives the same rune whatever follows. -/
theorem decodeRune_chunk {b : Nat} {rest : GoString} (hb : 0x80 ≤ b)
    (hv : invalidHead (b :: rest) = false) :
    ∃ chunk tail, b :: rest = chunk ++ tail ∧
      chunk.length = (decodeRune (b :: rest)).2 ∧ 2 ≤ chunk.length ∧
      (∀ x ∈ chunk, 0x80 ≤ x) ∧
      encodeRune (decodeRune (b :: rest)).1 = chunk ∧
      (∀ t, decodeRune (chunk ++ t) = decodeRune (b :: rest)) := by
  rcases decodeRune_cases hb hv with
    ⟨b1, t, rfl, h1, h2, h3, h4, hd⟩ |
    ⟨b1, b2, t, rfl, h1, h2, h3, h4, h5, h6, h7, h8, hd⟩ |
    ⟨b1, b2, b3, t, rfl, h1, h2, h3, h4, h5, h6, h7, h8, h9, h10, hd⟩
  · refine ⟨[b, b1], t, rfl, by rw [hd]; rfl, by simp, ?_, ?_, ?_⟩
    · intro x hx
      simp at hx
      omega
    · rw [hd]
      have e1 : ¬ (b % 32 * 64 + b1 % 64 ≤ 0x7F) := by omega
      have e2 : b % 32 * 64 + b1 % 64 ≤ 0x7FF := by omega
      have e3 : 0xC0 + (b % 32 * 64 + b1 % 64) / 64 = b := by omega
      have e4 : 0x80 + (b % 32 * 64 + b1 % 64) % 64 = b1 := by omega
      simp only [encodeRune, if_neg e1, if_pos e2, e3, e4]
    · intro t'
      rw [hd]
      have c0 : ¬ b < 0x80 := by omega
      have c1 : ¬ (b < 0xC2 ∨ 0xF4 < b) := by omega
      have c2 : b ≠ 0xE0 ∧ b ≠ 0xF0 ∧ b ≠ 0xED ∧ b ≠ 0xF4 := by omega
      have c3 : ¬ (b1 < 0x80 ∨ 0xBF < b1) := by omega
      simp [decodeRune, c0, c1, c2, c3, h2]
  · refine ⟨[b, b1, b2], t, rfl, by rw [hd]; rfl, by simp, ?_, ?_, ?_⟩
    · intro x hx
      simp at hx
      omega
    · rw [hd]
      have e1 : ¬ (b % 16 * 4096 + b1 % 64 * 64 + b2 % 64 ≤ 0x7F) := by omega
      have e2 : ¬ (b % 16 * 4096 + b1 % 64 * 64 + b2 % 64 ≤ 0x7FF) := by omega
      have e3 : ¬ (b % 16 * 4096 + b1 % 64 * 64 + b2 % 64 > 0x10FFFF ∨
          (0xD800 ≤ b % 16 * 4096 + b1 % 64 * 64 + b2 % 64 ∧
            b % 16 * 4096 + b1 % 64 * 64 + b2 % 64 ≤ 0xDFFF)) := by omega
      have e4 : b % 16 * 4096 + b1 % 64 * 64 + b2 % 64 ≤ 0xFFFF := by omega
      have e5 : 0xE0 + (b % 16 * 4096 + b1 % 64 * 64 + b2 % 64) / 4096 = b := by omega
      have e6 : 0x80 + (b % 16 * 4096 + b1 % 64 * 64 + b2 % 64) / 64 % 64 = b1 := by omega
      have e7 : 0x80 + (b % 16 * 4096 + b1 % 64 * 64 + b2 % 64) % 64 = b2 := by omega
      simp only [encodeRune, if_neg e1, if_neg e2, if_neg e3, if_pos e4, e5, e6, e7]
    · intro t'
      rw [hd]
      have c0 : ¬ b < 0x80 := by omega
      have c1 : ¬ (b < 0xC2 ∨ 0xF4 < b) := by omega
      have c2 : ¬ (b1 < (if b = 0xE0 then 0xA0 else if b = 0xF0 then 0x90 else 0x80) ∨
          (if b = 0xED then 0x9F else if b = 0xF4 then 0x8F else 0xBF) < b1) := by
        split_ifs <;> omega
      have c3 : ¬ b < 0xE0 := by omega
      have c4 : ¬ (b2 < 0x80 ∨ 0xBF < b2) := by omega
      simp [decodeRune, c0, c1, c2, c3, c4, h2]
  · refine ⟨[b, b1, b2, b3], t, rfl, by rw [hd]; rfl, by simp, ?_, ?_, ?_⟩
    · intro x hx
      simp at hx
      omega
    · rw [hd]
      have e1 : ¬ (b % 8 * 262144 + b1 % 64 * 4096 + b2 % 64 * 64 + b3 % 64 ≤ 0x7F) := by
        omega
      have e2 : ¬ (b % 8 * 262144 + b1 % 64 * 4096 + b2 % 64 * 64 + b3 % 64 ≤ 0x7FF) := by
        omega
      have e3 : ¬ (b % 8 * 262144 + b1 % 64 * 4096 + b2 % 64 * 64 + b3 % 64 > 0x10FFFF ∨
          (0xD800 ≤ b % 8 * 262144 + b1 % 64 * 4096 + b2 % 64 * 64 + b3 % 64 ∧
            b % 8 * 262144 + b1 % 64 * 4096 + b2 % 64 * 64 + b3 % 64 ≤ 0xDFFF)) := by omega
      have e4 : ¬ (b % 8 * 262144 + b1 % 64 * 4096 + b2 % 64 * 64 + b3 % 64 ≤ 0xFFFF) := by
        omega
      have e5 : 0xF0 + (b % 8 * 262144 + b1 % 64 * 4096 + b2 % 64 * 64 + b3 % 64) / 262144
          = b := by omega
      have e6 : 0x80 + (b % 8 * 262144 + b1 % 64 * 4096 + b2 % 64 * 64 + b3 % 64) / 4096 % 64
          = b1 := by omega
      have e7 : 0x80 + (b % 8 * 262144 + b1 % 64 * 4096 + b2 % 64 * 64 + b3 % 64) / 64 % 64
          = b2 := by omega
      have e8 : 0x80 + (b % 8 * 262144 + b1 % 64 * 4096 + b2 % 64 * 64 + b3 % 64) % 64
          = b3 := by omega
      simp only [encodeRune, if_neg e1, if_neg e2, if_neg e3, if_neg e4, e5, e6, e7, e8]
    · intro t'
      rw [hd]
      have c0 : ¬ b < 0x80 := by omega
      have c1 : ¬ (b < 0xC2 ∨ 0xF4 < b) := by omega
      have c2 : ¬ (b1 < (if b = 0xE0 then 0xA0 else if b = 0xF0 then 0x90 else 0x80) ∨
          (if b = 0xED then 0x9F else if b = 0xF4 then 0x8F else 0xBF) < b1) := by
        split_ifs <;> omega
      have c3 : ¬ b < 0xE0 := by omega
      have c4 : ¬ (b2 < 0x80 ∨ 0xBF < b2) := by omega
      have c5 : ¬ b < 0xF0 := by omega
      have c6 : ¬ (b3 < 0x80 ∨ 0xBF < b3) := by omega
      simp [decodeRune, c0, c1, c2, c3, c4, c5, c6]

/-- The facts of `decodeRune_chunk`, for the bytes `take` cuts off. -/
theorem decodeRune_valid {b : Nat} {rest : GoString} (hb : 0x80 ≤ b)
    (hv : invalidHead (b :: rest) = false) :
    ((b :: rest).take (decodeRune (b :: rest)).2).length = (decodeRune (b :: rest)).2 ∧
    2 ≤ (decodeRune (b :: rest)).2 ∧
    (∀ x ∈ (b :: rest).take (decodeRune (b :: rest)).2, 0x80 ≤ x) ∧
    encodeRune (decodeRune (b :: rest)).1 = (b :: rest).take (decodeRune (b :: rest)).2 ∧
    (∀ t, decodeRune ((b :: rest).take (decodeRune (b :: rest)).2 ++ t)
      = decodeRune (b :: rest)) := by
  obtain ⟨chunk, tail, hs, hlen, h2, hhigh, henc, hdec⟩ := decodeRune_chunk hb hv
  have htake : (b :: rest).take (decodeRune (b :: rest)).2 = chunk := by
    rw [← hlen, hs, List.take_left']
    rfl
  rw [htake]
  exact ⟨hlen, hlen ▸ h2, hhigh, henc, hdec⟩

/-! ### String literals -/

theorem scan_append (s : Scanner) (a b : GoString) : scan s (a ++ b) = scan (scan s a) b := by
  simp [scan, List.foldl_append]

theorem scan_cons (s : Scanner) (c : Nat) (a : GoString) :
    scan s (c :: a) = scan (scanByte s c) a := rfl

theorem scan_nil (s : Scanner) : scan s [] = s := rfl

/-- Inside a string, a byte that is neither a quote, a backslash nor a control
character is kept. -/
theorem scanByte_inString_plain (acc : GoString) (σ : List Frame) (top : Option JSON)
    (c : Nat) (h1 : c ≠ 0x22) (h2 : c ≠ 0x5C) (h3 : ¬ c < 0x20) :
    scanByte ⟨.inString acc, σ, top⟩ c = ⟨.inString (acc ++ [c]), σ, top⟩ := by
  simp [scanByte, h1, h2, h3]

theorem scan_inString_high (chunk : GoString) (h : ∀ x ∈ chunk, 0x80 ≤ x)
    (acc : GoString) (σ : List Frame) (top : Option JSON) :
    scan ⟨.inString acc, σ, top⟩ chunk = ⟨.inString (acc ++ chunk), σ, top⟩ := by
  induction chunk generalizing acc with
  | nil => simp [scan_nil]
  | cons c cs ih =>
    have hc : 0x80 ≤ c := h c (by simp)
    rw [scan_cons, scanByte_inString_plain acc σ top c (by omega) (by omega) (by omega),
      ih (fun x hx => h x (by simp [hx]))]
    simp

theorem hexVal_hexDigit (k : Nat) (hk : k < 16) : hexVal (hexDigit k) = some k := by
  interval_cases k <;> decide

/-- The scanner reads a `\uXXXX` escape and is back inside the string. -/
theorem scan_inString_u4 (acc : GoString) (σ : List Frame) (top : Option JSON)
    (a b c d : Nat) (ha : (hexVal a).isSome = true) (hb : (hexVal b).isSome = true)
    (hc : (hexVal c).isSome = true) (hd : (hexVal d).isSome = true) :
    scan ⟨.inString acc, σ, top⟩ [0x5C, 0x75, a, b, c, d]
      = ⟨.inString (acc ++ [0x5C, 0x75, a, b, c, d]), σ, top⟩ := by
  simp [scan, scanByte, ha, hb, hc, hd]

/-- The scanner stays inside the string over the bytes written for one rune. -/
theorem scan_escapeStep (s : GoString) (acc : GoString) (σ : List Frame) (top : Option JSON) :
    scan ⟨.inString acc, σ, top⟩ (escapeStep s).1
      = ⟨.inString (acc ++ (escapeStep s).1), σ, top⟩ := by
  cases s with
  | nil => simp [escapeStep, scan_nil]
  | cons b rest =>
    by_cases hb : b < 0x80
    · have hx : (hexVal (hexDigit (b / 16))).isSome = true := by
        rw [hexVal_hexDigit _ (by omega)]; rfl
      have hy : (hexVal (hexDigit (b % 16))).isSome = true := by
        rw [hexVal_hexDigit _ (by omega)]; rfl
      simp only [escapeStep, if_pos hb]
      split_ifs with h1 h2 h3 h4 h5 h6 h7
      · simp only [htmlSafe, Bool.and_eq_true, decide_eq_true_eq, bne_iff_ne, ne_eq] at h1
        rw [scan_cons, scanByte_inString_plain acc σ top b (by omega) (by omega) (by omega)]
        rfl
      · rcases h2 with h2 | h2 <;> subst h2 <;> simp [scan, scanByte]
      · subst h3; simp [scan, scanByte]
      · subst h4; simp [scan, scanByte]
      · subst h5; simp [scan, scanByte]
      · subst h6; simp [scan, scanByte]
      · subst h7; simp [scan, scanByte]
      · exact scan_inString_u4 acc σ top _ _ _ _ (by decide) (by decide) hx hy
    · have hb' : 0x80 ≤ b := by omega
      simp only [escapeStep, if_neg hb]
      by_cases hv : invalidHead (b :: rest) = true
      · simp only [hv, if_true]
        exact scan_inString_u4 acc σ top _ _ _ _ (by decide) (by decide) (by decide) (by decide)
      · simp only [hv, Bool.false_eq_true, if_false]
        have hv' : invalidHead (b :: rest) = false := by simpa using hv
        obtain ⟨_, _, hhigh, _, _⟩ := decodeRune_valid hb' hv'
        split_ifs with h1
        · have hz : (hexVal (hexDigit ((decodeRune (b :: rest)).1 % 16))).isSome = true := by
            rw [hexVal_hexDigit _ (by omega)]; rfl
          exact scan_inString_u4 acc σ top _ _ _ _ (by decide) (by decide) (by decide) hz
        · exact scan_inString_high _ hhigh acc σ top

theorem scan_escapeLoop (n : Nat) (s : GoString) (acc : GoString) (σ : List Frame)
    (top : Option JSON) :
    scan ⟨.inString acc, σ, top⟩ (escapeLoop n s)
      = ⟨.inString (acc ++ escapeLoop n s), σ, top⟩ := by
  induction n generalizing s acc with
  | zero => simp [escapeLoop, scan_nil]
  | succ n ih =>
    cases s with
    | nil => simp [escapeLoop, scan_nil]
    | cons b rest =>
      simp only [escapeLoop]
      rw [scan_append, scan_escapeStep, ih, List.append_assoc]

theorem getu4_digits (a b c d va vb vc vd : Nat) (t : GoString)
    (ha : hexVal a = some va) (hb : hexVal b = some vb) (hc : hexVal c = some vc)
    (hd : hexVal d = some vd) :
    getu4 (0x5C :: 0x75 :: a :: b :: c :: d :: t)
      = some (((va * 16 + vb) * 16 + vc) * 16 + vd) := by
  simp [getu4, ha, hb, hc, hd]

/-- Go `unquote` on a `\uXXXX` escape that is not a surrogate. -/
theorem unquoteLoop_u4 (fuel a b c d rr : Nat) (t : GoString)
    (hg : getu4 (0x5C :: 0x75 :: a :: b :: c :: d :: t) = some rr)
    (hs : ¬ (0xD800 ≤ rr ∧ rr < 0xE000)) :
    unquoteLoop (fuel + 1) (0x5C :: 0x75 :: a :: b :: c :: d :: t)
      = (unquoteLoop fuel t).map (encodeRune rr ++ ·) := by
  simp [unquoteLoop, hg, hs]

/-- Go `unquote` undoes what `appendString` writes for one rune, up to the
coercion to well-formed UTF-8. -/
theorem unquoteLoop_escapeStep (b : Nat) (rest : GoString) (fuel : Nat) (t : GoString) :
    unquoteLoop (fuel + 1) ((escapeStep (b :: rest)).1 ++ t)
      = (unquoteLoop fuel t).map ((coerceStep (b :: rest)).1 ++ ·) ∧
    (escapeStep (b :: rest)).2 = (coerceStep (b :: rest)).2 ∧
    1 ≤ (escapeStep (b :: rest)).1.length := by
  by_cases hb : b < 0x80
  · simp only [escapeStep, coerceStep, if_pos hb]
    split_ifs with h1 h2 h3 h4 h5 h6 h7
    · simp only [htmlSafe, Bool.and_eq_true, decide_eq_true_eq, bne_iff_ne, ne_eq] at h1
      have c1 : ¬ b = 0x5C := by omega
      have c2 : ¬ (b = 0x22 ∨ b < 0x20) := by omega
      simp [unquoteLoop, c1, c2, hb]
    · rcases h2 with h2 | h2 <;> subst h2 <;> simp [unquoteLoop]
    · subst h3; simp [unquoteLoop]
    · subst h4; simp [unquoteLoop]
    · subst h5; simp [unquoteLoop]
    · subst h6; simp [unquoteLoop]
    · subst h7; simp [unquoteLoop]
    · have hg := getu4_digits 0x30 0x30 (hexDigit (b / 16)) (hexDigit (b % 16)) 0 0
        (b / 16) (b % 16) t (by decide) (by decide)
        (hexVal_hexDigit _ (by omega)) (hexVal_hexDigit _ (by omega))
      have hval : ((0 * 16 + 0) * 16 + b / 16) * 16 + b % 16 = b := by omega
      rw [hval] at hg
      have henc : encodeRune b = [b] := by
        have : b ≤ 0x7F := by omega
        simp [encodeRune, this]
      refine ⟨?_, rfl, by simp⟩
      show unquoteLoop (fuel + 1)
        (0x5C :: 0x75 :: 0x30 :: 0x30 :: hexDigit (b / 16) :: hexDigit (b % 16) :: t) = _
      rw [unquoteLoop_u4 fuel _ _ _ _ b t hg (by omega), henc]
  · have hb' : 0x80 ≤ b := by omega
    by_cases hv : invalidHead (b :: rest) = true
    · have he : escapeStep (b :: rest) = ([0x5C, 0x75, 0x66, 0x66, 0x66, 0x64], 1) := by
        simp only [escapeStep, if_neg hb, hv, if_true]
      have hc : coerceStep (b :: rest) = ([0xEF, 0xBF, 0xBD], 1) := by
        simp only [coerceStep, if_neg hb, hv, if_true]
      rw [he, hc]
      have hg := getu4_digits 0x66 0x66 0x66 0x64 15 15 15 13 t (by decide) (by decide)
        (by decide) (by decide)
      refine ⟨?_, rfl, by simp⟩
      show unquoteLoop (fuel + 1) (0x5C :: 0x75 :: 0x66 :: 0x66 :: 0x66 :: 0x64 :: t) = _
      rw [unquoteLoop_u4 fuel _ _ _ _ _ t hg (by decide)]
      rfl
    · have hv' : invalidHead (b :: rest) = false := by simpa using hv
      obtain ⟨chunk, tail, hs, hlen, h2, hhigh, henc, hdec⟩ := decodeRune_chunk hb' hv'
      have htake : (b :: rest).take (decodeRune (b :: rest)).2 = chunk := by
        rw [← hlen, hs, List.take_left']
        rfl
      have hc : coerceStep (b :: rest) = (chunk, (decodeRune (b :: rest)).2) := by
        simp only [coerceStep, if_neg hb, hv', Bool.false_eq_true, if_false, htake]
      by_cases h1 : (decodeRune (b :: rest)).1 = 0x2028 ∨ (decodeRune (b :: rest)).1 = 0x2029
      · have he : escapeStep (b :: rest)
            = ([0x5C, 0x75, 0x32, 0x30, 0x32, hexDigit ((decodeRune (b :: rest)).1 % 16)],
                (decodeRune (b :: rest)).2) := by
          simp only [escapeStep, if_neg hb, hv', Bool.false_eq_true, if_false, if_pos h1]
        rw [he, hc]
        refine ⟨?_, rfl, by simp⟩
        rw [← henc]
        rcases h1 with h1 | h1
        · rw [h1]
          have hg := getu4_digits 0x32 0x30 0x32 (hexDigit (0x2028 % 16)) 2 0 2 8 t
            (by decide) (by decide) (by decide) (by decide)
          show unquoteLoop (fuel + 1)
            (0x5C :: 0x75 :: 0x32 :: 0x30 :: 0x32 :: hexDigit (0x2028 % 16) :: t) = _
          rw [unquoteLoop_u4 fuel _ _ _ _ _ t hg (by decide)]
        · rw [h1]
          have hg := getu4_digits 0x32 0x30 0x32 (hexDigit (0x2029 % 16)) 2 0 2 9 t
            (by decide) (by decide) (by decide) (by decide)
          show unquoteLoop (fuel + 1)
            (0x5C :: 0x75 :: 0x32 :: 0x30 :: 0x32 :: hexDigit (0x2029 % 16) :: t) = _
          rw [unquoteLoop_u4 fuel _ _ _ _ _ t hg (by decide)]
      · have he : escapeStep (b :: rest) = (chunk, (decodeRune (b :: rest)).2) := by
          simp only [escapeStep, if_neg hb, hv', Bool.false_eq_true, if_false, if_neg h1, htake]
        rw [he, hc]
        refine ⟨?_, rfl, by show 1 ≤ chunk.length; omega⟩
        have hcons : ∃ c', chunk = b :: c' := by
          cases chunk with
          | nil => simp at h2
          | cons c c' =>
            simp only [List.cons_append, List.cons.injEq] at hs
            exact ⟨c', by rw [hs.1]⟩
        obtain ⟨c', hc'⟩ := hcons
        have hd := hdec t
        have hdrop : (chunk ++ t).drop (decodeRune (b :: rest)).2 = t := by
          rw [← hlen, List.drop_left']
          rfl
        rw [hc'] at hd hdrop
        have c1 : ¬ b = 0x5C := by omega
        have c2 : ¬ (b = 0x22 ∨ b < 0x20) := by omega
        simp only [List.cons_append] at hd hdrop
        show unquoteLoop (fuel + 1) (chunk ++ t) = _
        rw [hc', List.cons_append]
        simp only [unquoteLoop, if_neg c1, if_neg c2, if_neg hb, hd, hdrop]
        rw [henc, hc']

theorem unquoteLoop_escapeLoop (n : Nat) (s : GoString) (fuel : Nat)
    (hf : (escapeLoop n s).length ≤ fuel) :
    unquoteLoop fuel (escapeLoop n s) = some (toValidLoop n s) := by
  induction n generalizing s fuel with
  | zero => cases fuel <;> simp [escapeLoop, toValidLoop, unquoteLoop]
  | succ n ih =>
    cases s with
    | nil => cases fuel <;> simp [escapeLoop, toValidLoop, unquoteLoop]
    | cons b rest =>
      obtain ⟨h1, h2, h3⟩ := unquoteLoop_escapeStep b rest
        (fuel - 1) (escapeLoop n ((b :: rest).drop (escapeStep (b :: rest)).2))
      simp only [escapeLoop, List.length_append] at hf
      have hfuel : fuel - 1 + 1 = fuel := by omega
      rw [hfuel] at h1
      simp only [escapeLoop, toValidLoop]
      rw [h1, ih _ _ (by omega), h2]
      rfl

/-- Go `unquote` gives back the string `appendString` was given, coerced to
well-formed UTF-8. -/
theorem unquote_escapeLoop (s : GoString) :
    unquote (escapeLoop s.length s) = some (toValidUTF8 s) :=
  unquoteLoop_escapeLoop s.length s _ (Nat.le_refl _)

/-! ### Values -/

theorem parses_string (s : GoString) : Parses (appendString s) (.str (toValidUTF8 s)) := by
  intro σ top
  have h : ∀ st : Scanner, st.stack = σ → st.top = top →
      scanByte st 0x22 = ⟨.inString [], σ, top⟩ →
      scan st (appendString s) = complete σ top (.str (toValidUTF8 s)) := by
    intro st _ _ h0
    rw [appendString, List.cons_append, scan_cons, h0, scan_append, scan_escapeLoop,
      scan_cons, scan_nil]
    simp [scanByte, unquote_escapeLoop]
  exact ⟨h _ rfl rfl (by simp [scanByte, stateBeginValue, isSpace]),
    h _ rfl rfl (by simp [scanByte, stateBeginValue, isSpace])⟩

/-- An object key is read from where a key may begin. -/
theorem scan_key (k : GoString) (σ : List Frame) (top : Option JSON) :
    scan ⟨.beginString, σ, top⟩ (appendString k) = complete σ top (.str (toValidUTF8 k)) ∧
    scan ⟨.beginStringOrEmpty, σ, top⟩ (appendString k)
      = complete σ top (.str (toValidUTF8 k)) := by
  have h : ∀ st : Scanner, st.stack = σ → st.top = top →
      scanByte st 0x22 = ⟨.inString [], σ, top⟩ →
      scan st (appendString k) = complete σ top (.str (toValidUTF8 k)) := by
    intro st _ _ h0
    rw [appendString, List.cons_append, scan_cons, h0, scan_append, scan_escapeLoop,
      scan_cons, scan_nil]
    simp [scanByte, unquote_escapeLoop]
  exact ⟨h _ rfl rfl (by simp [scanByte, stateBeginString, isSpace]),
    h _ rfl rfl (by simp [scanByte, stateBeginString, isSpace])⟩

theorem parses_null : Parses (utf8 "null") .null := by
  intro σ top
  constructor <;> rfl

/-- A scanner that skips white space is unchanged by an indentation. -/
theorem scan_indentNL (st : Scanner) (h : ∀ c, isSpace c = true → scanByte st c = st)
    (d : Nat) : scan st (indentNL d) = st := by
  have hrep : ∀ n, scan st (List.replicate n 0x20) = st := by
    intro n
    induction n with
    | zero => rfl
    | succ n ih => rw [List.replicate_succ, scan_cons, h _ (by decide), ih]
  rw [indentNL, scan_cons, h _ (by decide), hrep]

theorem skip_beginValue (σ : List Frame) (top : Option JSON) (c : Nat)
    (h : isSpace c = true) : scanByte ⟨.beginValue, σ, top⟩ c = ⟨.beginValue, σ, top⟩ := by
  simp [scanByte, stateBeginValue, h]

theorem skip_beginValueOrEmpty (σ : List Frame) (top : Option JSON) (c : Nat)
    (h : isSpace c = true) :
    scanByte ⟨.beginValueOrEmpty, σ, top⟩ c = ⟨.beginValueOrEmpty, σ, top⟩ := by
  simp [scanByte, h]

theorem skip_beginString (σ : List Frame) (top : Option JSON) (c : Nat)
    (h : isSpace c = true) : scanByte ⟨.beginString, σ, top⟩ c = ⟨.beginString, σ, top⟩ := by
  simp [scanByte, stateBeginString, h]

theorem skip_beginStringOrEmpty (σ : List Frame) (top : Option JSON) (c : Nat)
    (h : isSpace c = true) :
    scanByte ⟨.beginStringOrEmpty, σ, top⟩ c = ⟨.beginStringOrEmpty, σ, top⟩ := by
  simp [scanByte, h]

theorem skip_endValue (f : Frame) (σ : List Frame) (top : Option JSON) (c : Nat)
    (h : isSpace c = true) :
    scanByte ⟨.endValue, f :: σ, top⟩ c = ⟨.endValue, f :: σ, top⟩ := by
  simp [scanByte, stateEndValue, h]

/-- The elements of an array, one after the other, from either state in which
an element may begin. -/
theorem scan_items (d : Nat) (σ : List Frame) (top : Option JSON) :
    ∀ (xs : List (GoString × JSON)), xs ≠ [] → (∀ p ∈ xs, Parses p.1 p.2) →
    ∀ acc,
      scan ⟨.beginValue, .array acc :: σ, top⟩ (joinItems d (xs.map (·.1)))
        = ⟨.endValue, .array (acc ++ xs.map (·.2)) :: σ, top⟩ ∧
      scan ⟨.beginValueOrEmpty, .array acc :: σ, top⟩ (joinItems d (xs.map (·.1)))
        = ⟨.endValue, .array (acc ++ xs.map (·.2)) :: σ, top⟩ := by
  intro xs
  induction xs with
  | nil => intro h; exact absurd rfl h
  | cons x rest ih =>
    intro _ hp acc
    have hx := hp x (by simp)
    cases rest with
    | nil =>
      simp only [List.map_cons, List.map_nil, joinItems]
      rw [scan_append, scan_append, scan_indentNL _ (skip_beginValue _ _),
        scan_indentNL _ (skip_beginValueOrEmpty _ _), (hx _ _).1, (hx _ _).2]
      exact ⟨rfl, rfl⟩
    | cons y r =>
      have ih' := ih (by simp) (fun p hp' => hp p (by simp [hp'])) (acc ++ [x.2])
      simp only [List.map_cons, joinItems] at ih' ⊢
      rw [scan_append, scan_append, scan_append, scan_append,
        scan_indentNL _ (skip_beginValue _ _),
        scan_indentNL _ (skip_beginValueOrEmpty _ _), (hx _ _).1, (hx _ _).2, scan_cons]
      have hcomma : scanByte (complete (.array acc :: σ) top x.2) 0x2C
          = ⟨.beginValue, .array (acc ++ [x.2]) :: σ, top⟩ := by
        simp [complete, scanByte, stateEndValue, isSpace]
      rw [hcomma, ih'.1]
      simp

theorem parses_array (d : Nat) (xs : List (GoString × JSON))
    (hp : ∀ p ∈ xs, Parses p.1 p.2) :
    Parses (jsonArray d (xs.map (·.1))) (.arr (xs.map (·.2))) := by
  intro σ top
  have h0 : scanByte ⟨.beginValue, σ, top⟩ 0x5B = ⟨.beginValueOrEmpty, .array [] :: σ, top⟩ := by
    simp [scanByte, stateBeginValue, isSpace]
  have h0' : scanByte ⟨.beginValueOrEmpty, σ, top⟩ 0x5B
      = ⟨.beginValueOrEmpty, .array [] :: σ, top⟩ := by
    simp [scanByte, stateBeginValue, isSpace]
  have hclose : ∀ items, scanByte ⟨.endValue, .array items :: σ, top⟩ 0x5D
      = complete σ top (.arr items) := by
    intro items
    simp [scanByte, stateEndValue, isSpace]
  cases xs with
  | nil =>
    have hempty : scanByte ⟨.beginValueOrEmpty, .array [] :: σ, top⟩ 0x5D
        = complete σ top (.arr []) := by
      simp [scanByte, stateEndValue, isSpace]
    simp only [List.map_nil, jsonArray, List.isEmpty_nil, if_true]
    rw [scan_cons, scan_cons, scan_cons, scan_cons, h0, h0', hempty, scan_nil]
    exact ⟨rfl, rfl⟩
  | cons x rest =>
    have hitems := (scan_items (d + 1) σ top (x :: rest) (by simp) hp []).2
    simp only [jsonArray, List.map_cons, List.isEmpty_cons, Bool.false_eq_true, if_false]
    simp only [List.map_cons, List.nil_append] at hitems
    simp only [List.cons_append, List.append_assoc]
    rw [scan_cons, scan_cons, h0, h0', scan_append, scan_append, hitems,
      scan_indentNL _ (skip_endValue _ _ _), scan_cons, hclose, scan_nil]
    exact ⟨rfl, rfl⟩

/-- One member of an object: the key, the colon and the value. -/
theorem scan_member (σ : List Frame) (top : Option JSON) (k text : GoString) (v : JSON)
    (hv : Parses text v) (d : Nat) (acc : List (GoString × JSON)) :
    scan ⟨.beginString, .objectKey acc none :: σ, top⟩ (indentNL d ++ jsonMember (k, text))
      = ⟨.endValue, .objectValue (acc ++ [(toValidUTF8 k, v)]) none :: σ, top⟩ ∧
    scan ⟨.beginStringOrEmpty, .objectKey acc none :: σ, top⟩
        (indentNL d ++ jsonMember (k, text))
      = ⟨.endValue, .objectValue (acc ++ [(toValidUTF8 k, v)]) none :: σ, top⟩ := by
  have hcolon : scanByte (complete (.objectKey acc none :: σ) top (.str (toValidUTF8 k))) 0x3A
      = ⟨.beginValue, .objectValue acc (some (toValidUTF8 k)) :: σ, top⟩ := by
    simp [complete, scanByte, stateEndValue, isSpace]
  have hval : scan ⟨.beginValue, .objectValue acc (some (toValidUTF8 k)) :: σ, top⟩
      (0x20 :: text)
      = ⟨.endValue, .objectValue (acc ++ [(toValidUTF8 k, v)]) none :: σ, top⟩ := by
    rw [scan_cons, skip_beginValue _ _ _ (by decide), (hv _ _).1]
    rfl
  simp only [jsonMember]
  rw [scan_append, scan_append, scan_append, scan_append,
    scan_indentNL _ (skip_beginString _ _), scan_indentNL _ (skip_beginStringOrEmpty _ _),
    (scan_key k _ _).1, (scan_key k _ _).2, scan_cons, hcolon, hval]
  exact ⟨rfl, rfl⟩

/-- The members of an object, one after the other. -/
theorem scan_members (d : Nat) (σ : List Frame) (top : Option JSON) :
    ∀ (ms : List (GoString × GoString × JSON)), ms ≠ [] →
    (∀ m ∈ ms, Parses m.2.1 m.2.2) →
    ∀ acc,
      scan ⟨.beginString, .objectKey acc none :: σ, top⟩
          (joinItems d ((ms.map (fun m => (m.1, m.2.1))).map jsonMember))
        = ⟨.endValue,
            .objectValue (acc ++ ms.map (fun m => (toValidUTF8 m.1, m.2.2))) none :: σ, top⟩ ∧
      scan ⟨.beginStringOrEmpty, .objectKey acc none :: σ, top⟩
          (joinItems d ((ms.map (fun m => (m.1, m.2.1))).map jsonMember))
        = ⟨.endValue,
            .objectValue (acc ++ ms.map (fun m => (toValidUTF8 m.1, m.2.2))) none :: σ, top⟩ := by
  intro ms
  induction ms with
  | nil => intro h; exact absurd rfl h
  | cons m rest ih =>
    intro _ hp acc
    have hm := scan_member σ top m.1 m.2.1 m.2.2 (hp m (by simp)) d acc
    cases rest with
    | nil =>
      simp only [List.map_cons, List.map_nil, joinItems]
      exact hm
    | cons y r =>
      have ih' := ih (by simp) (fun p hp' => hp p (by simp [hp']))
        (acc ++ [(toValidUTF8 m.1, m.2.2)])
      simp only [List.map_cons, joinItems] at ih' ⊢
      have hcomma : scanByte
          ⟨.endValue, .objectValue (acc ++ [(toValidUTF8 m.1, m.2.2)]) none :: σ, top⟩ 0x2C
          = ⟨.beginString, .objectKey (acc ++ [(toValidUTF8 m.1, m.2.2)]) none :: σ, top⟩ := by
        simp [scanByte, stateEndValue, isSpace]
      constructor
      · rw [scan_append, hm.1, scan_cons, hcomma, ih'.1]
        simp
      · rw [scan_append, hm.2, scan_cons, hcomma, ih'.1]
        simp

theorem parses_object (d : Nat) (ms : List (GoString × GoString × JSON))
    (hp : ∀ m ∈ ms, Parses m.2.1 m.2.2) :
    Parses (jsonObject d (ms.map (fun m => (m.1, m.2.1))))
      (.obj (ms.map (fun m => (toValidUTF8 m.1, m.2.2)))) := by
  intro σ top
  have h0 : scanByte ⟨.beginValue, σ, top⟩ 0x7B
      = ⟨.beginStringOrEmpty, .objectKey [] none :: σ, top⟩ := by
    simp [scanByte, stateBeginValue, isSpace]
  have h0' : scanByte ⟨.beginValueOrEmpty, σ, top⟩ 0x7B
      = ⟨.beginStringOrEmpty, .objectKey [] none :: σ, top⟩ := by
    simp [scanByte, stateBeginValue, isSpace]
  have hclose : ∀ members, scanByte ⟨.endValue, .objectValue members none :: σ, top⟩ 0x7D
      = complete σ top (.obj members) := by
    intro members
    simp [scanByte, stateEndValue, isSpace]
  cases ms with
  | nil =>
    have hempty : scanByte ⟨.beginStringOrEmpty, .objectKey [] none :: σ, top⟩ 0x7D
        = complete σ top (.obj []) := by
      simp [scanByte, stateEndValue, isSpace]
    simp only [List.map_nil, jsonObject, List.isEmpty_nil, if_true]
    rw [scan_cons, scan_cons, scan_cons, scan_cons, h0, h0', hempty, scan_nil]
    exact ⟨rfl, rfl⟩
  | cons m rest =>
    have hms := (scan_members (d + 1) σ top (m :: rest) (by simp) hp []).2
    simp only [jsonObject, List.map_cons, List.isEmpty_cons, Bool.false_eq_true, if_false]
    simp only [List.map_cons, List.nil_append] at hms
    simp only [List.cons_append, List.append_assoc]
    rw [scan_cons, scan_cons, h0, h0', scan_append, scan_append, hms,
      scan_indentNL _ (skip_endValue _ _ _), scan_cons, hclose, scan_nil]
    exact ⟨rfl, rfl⟩

/-- A text read as a value `v` from the start of the input is what `parseJSON`
returns. -/
theorem parseJSON_of_parses {text : GoString} {v : JSON} (h : Parses text v) :
    parseJSON text = some v := by
  simp only [parseJSON, (h [] none).1]
  rfl

/-- The line break written after the text does not change what is read. -/
theorem parseJSON_newline_of_parses {text : GoString} {v : JSON} (h : Parses text v) :
    parseJSON (text ++ [0x0A]) = some v := by
  simp only [parseJSON, scan_append, (h [] none).1]
  rfl

/-! ### Users -/

theorem parses_membership (d : Nat) (m : UserOrganization) :
    Parses (UserOrganization.marshal d m) m.toJSON := by
  have h := parses_object d
    [(utf8 "UserID", appendString m.UserID, .str (toValidUTF8 m.UserID)),
     (utf8 "OrgID", appendString m.OrgID, .str (toValidUTF8 m.OrgID)),
     (utf8 "Email", appendString m.Email, .str (toValidUTF8 m.Email))]
    (by
      intro p hp
      simp only [List.mem_cons, List.mem_singleton, List.not_mem_nil, or_false] at hp
      rcases hp with rfl | rfl | rfl <;> exact parses_string _)
  exact h

theorem parses_memberships (d : Nat) (os : GoSlice UserOrganization) :
    Parses (marshalMemberships d os) (membershipsJSON os) := by
  cases os with
  | none => exact parses_null
  | some l =>
    have h := parses_array d (l.map (fun m => (UserOrganization.marshal (d + 1) m, m.toJSON)))
      (by
        intro p hp
        simp only [List.mem_map] at hp
        obtain ⟨m, _, rfl⟩ := hp
        exact parses_membership _ m)
    simp only [List.map_map] at h
    exact h

theorem parses_user (d : Nat) (u : User) : Parses (User.marshal d u) u.toJSON := by
  have h := parses_object d
    [(utf8 "ExternalID", appendString u.ExternalID, .str (toValidUTF8 u.ExternalID)),
     (utf8 "Organizations", marshalMemberships (d + 1) u.Organizations,
        membershipsJSON u.Organizations)]
    (by
      intro p hp
      simp only [List.mem_cons, List.mem_singleton, List.not_mem_nil, or_false] at hp
      rcases hp with rfl | rfl
      · exact parses_string _
      · exact parses_memberships _ _)
  exact h

theorem parses_users (us : GoSlice User) : Parses (marshalUsers us) (usersJSON us) := by
  cases us with
  | none => exact parses_null
  | some l =>
    have h := parses_array 0 (l.map (fun u => (User.marshal 1 u, u.toJSON)))
      (by
        intro p hp
        simp only [List.mem_map] at hp
        obtain ⟨u, _, rfl⟩ := hp
        exact parses_user _ u)
    simp only [List.map_map] at h
    exact h

/-- Reading the text written for a list of users gives the JSON value of the
list. -/
theorem parseJSON_marshalUsers (us : GoSlice User) :
    parseJSON (marshalUsers us) = some (usersJSON us) :=
  parseJSON_of_parses (parses_users us)

theorem decodeElems_map {α : Type} (zero : α) (dec : α → JSON → Except Err α)
    (toJ : α → JSON) (f : α → α) (h : ∀ a, dec zero (toJ a) = .ok (f a)) (l : List α) :
    decodeElems zero dec [] (l.map toJ) = .ok (l.map f) := by
  induction l with
  | nil => rfl
  | cons a as ih =>
    simp only [List.map_cons, decodeElems, List.headD_nil, List.tail_nil, h, ih]

theorem decode_membership (m : UserOrganization) :
    UserOrganization.decode ⟨[], [], []⟩ m.toJSON = .ok m.toValid := rfl

theorem decode_memberships (os : GoSlice UserOrganization) :
    decodeMemberships none (membershipsJSON os)
      = .ok (os.map (List.map UserOrganization.toValid)) := by
  cases os with
  | none => rfl
  | some l =>
    simp only [membershipsJSON, decodeMemberships, GoSlice.elems,
      decodeElems_map _ _ _ _ decode_membership]
    rfl

theorem decode_user_object (e : GoString) (mj : JSON) (r : GoSlice UserOrganization)
    (h : decodeMemberships none mj = .ok r) :
    User.decode ⟨[], none⟩ (.obj [(utf8 "ExternalID", .str e), (utf8 "Organizations", mj)])
      = .ok ⟨e, r⟩ := by
  have hf1 : (findField User.fields (utf8 "ExternalID")).map (·.name) = some "ExternalID" := by
    decide
  have hf2 : (findField User.fields (utf8 "Organizations")).map (·.name)
      = some "Organizations" := by decide
  simp only [User.decode, decodeMembers]
  simp only [User.setField, hf1, decodeString]
  simp only [Except.map]
  simp only [hf2, h]

theorem decode_user (u : User) : User.decode ⟨[], none⟩ u.toJSON = .ok u.toValid :=
  decode_user_object _ _ _ (decode_memberships u.Organizations)

theorem decode_users (us : GoSlice User) :
    decodeUsers none (usersJSON us) = .ok (us.map (List.map User.toValid)) := by
  cases us with
  | none => rfl
  | some l =>
    simp only [usersJSON, decodeUsers, GoSlice.elems, decodeElems_map _ _ _ _ decode_user]
    rfl

/-- Parsing the text written for a list of users gives the list back with
every string coerced to well-formed UTF-8. -/
theorem jsonUnmarshal_marshalUsers (us : GoSlice User) :
    jsonUnmarshal (marshalUsers us) = .ok (us.map (List.map User.toValid)) := by
  simp only [jsonUnmarshal, parseJSON_marshalUsers, decode_users]

theorem toValidLoop_of_valid (n : Nat) (s : GoString) (h : validLoop n s = true) :
    toValidLoop n s = s := by
  induction n generalizing s with
  | zero =>
    cases s with
    | nil => rfl
    | cons b rest => simp [validLoop] at h
  | succ n ih =>
    cases s with
    | nil => rfl
    | cons b rest =>
      by_cases hb : b < 0x80
      · simp only [validLoop, if_pos hb] at h
        simp only [toValidLoop, coerceStep, if_pos hb, List.drop_succ_cons, List.drop_zero,
          ih rest h]
        rfl
      · by_cases hv : invalidHead (b :: rest) = true
        · simp [validLoop, hb, hv] at h
        · simp only [validLoop, if_neg hb, hv, Bool.false_eq_true, if_false] at h
          simp only [toValidLoop, coerceStep, if_neg hb, hv, Bool.false_eq_true, if_false,
            ih _ h, List.take_append_drop]

theorem toValidUTF8_of_valid (s : GoString) (h : validUTF8 s = true) : toValidUTF8 s = s :=
  toValidLoop_of_valid _ s h

theorem toValid_of_valid (u : User) (h : u.valid = true) : u.toValid = u := by
  obtain ⟨e, os⟩ := u
  simp only [User.valid, Bool.and_eq_true, List.all_eq_true] at h
  have hm : ∀ l : List UserOrganization,
      (∀ m ∈ l, validUTF8 m.UserID = true ∧ validUTF8 m.OrgID = true ∧
        validUTF8 m.Email = true) → l.map UserOrganization.toValid = l := by
    intro l hl
    induction l with
    | nil => rfl
    | cons m ms ih =>
      obtain ⟨h1, h2, h3⟩ := hl m (by simp)
      rw [List.map_cons, ih (fun x hx => hl x (by simp [hx]))]
      simp only [UserOrganization.toValid, toValidUTF8_of_valid _ h1,
        toValidUTF8_of_valid _ h2, toValidUTF8_of_valid _ h3]
  simp only [User.toValid, toValidUTF8_of_valid _ h.1]
  cases os with
  | none => rfl
  | some l =>
    simp only [Option.map_some']
    rw [hm l]
    intro m hmem
    have := h.2 m (by simpa [GoSlice.elems] using hmem)
    simpa [and_assoc] using this

theorem coerceStep_width (b : Nat) (rest : GoString) : 1 ≤ (coerceStep (b :: rest)).2 := by
  by_cases hb : b < 0x80
  · simp [coerceStep, hb]
  · by_cases hv : invalidHead (b :: rest) = true
    · simp [coerceStep, hb, hv]
    · have hv' : invalidHead (b :: rest) = false := by simpa using hv
      have h2 := (decodeRune_valid (by omega : 0x80 ≤ b) hv').2.1
      simp only [coerceStep, if_neg hb, hv', Bool.false_eq_true, if_false]
      omega

theorem toValidLoop_fuel (f1 f2 : Nat) (s : GoString) (h1 : s.length ≤ f1)
    (h2 : s.length ≤ f2) : toValidLoop f1 s = toValidLoop f2 s := by
  induction f1 generalizing f2 s with
  | zero =>
    cases s with
    | nil => cases f2 <;> rfl
    | cons b rest => simp at h1
  | succ n ih =>
    cases s with
    | nil => cases f2 <;> rfl
    | cons b rest =>
      cases f2 with
      | zero => simp at h2
      | succ m =>
        have hw := coerceStep_width b rest
        simp only [List.length_cons] at h1 h2
        simp only [toValidLoop]
        rw [ih m _ (by simp only [List.length_drop, List.length_cons]; omega)
          (by simp only [List.length_drop, List.length_cons]; omega)]

/-- The coercion to well-formed UTF-8, byte by byte: an ASCII byte is kept, an
invalid byte becomes U+FFFD, and a well-formed multi-byte encoding is kept
whole. -/
theorem toValidUTF8_steps :
    toValidUTF8 [] = [] ∧
    (∀ b rest, b < 0x80 → toValidUTF8 (b :: rest) = b :: toValidUTF8 rest) ∧
    (∀ b rest, 0x80 ≤ b → invalidHead (b :: rest) = true →
      toValidUTF8 (b :: rest) = 0xEF :: 0xBF :: 0xBD :: toValidUTF8 rest) ∧
    (∀ b rest, 0x80 ≤ b → invalidHead (b :: rest) = false →
      toValidUTF8 (b :: rest) = (b :: rest).take (decodeRune (b :: rest)).2 ++
        toValidUTF8 ((b :: rest).drop (decodeRune (b :: rest)).2)) := by
  refine ⟨rfl, ?_, ?_, ?_⟩
  · intro b rest hb
    simp only [toValidUTF8, List.length_cons, toValidLoop, coerceStep, if_pos hb,
      List.drop_succ_cons, List.drop_zero]
    rfl
  · intro b rest hb hv
    have hb' : ¬ b < 0x80 := by omega
    simp only [toValidUTF8, List.length_cons, toValidLoop, coerceStep, if_neg hb', hv, if_true,
      List.drop_succ_cons, List.drop_zero]
    rfl
  · intro b rest hb hv
    have hb' : ¬ b < 0x80 := by omega
    have h2 := (decodeRune_valid hb hv).2.1
    simp only [toValidUTF8, List.length_cons, toValidLoop, coerceStep, if_neg hb', hv,
      Bool.false_eq_true, if_false]
    rw [toValidLoop_fuel rest.length _ _
      (by simp only [List.length_drop, List.length_cons]; omega) (Nat.le_refl _)]

theorem userShape_toJSON (u : User) :
    userShape [utf8 "ExternalID", utf8 "Organizations"]
      [utf8 "UserID", utf8 "OrgID", utf8 "Email"] u.toJSON = true := by
  obtain ⟨e, os⟩ := u
  cases os with
  | none => rfl
  | some l =>
    have h : userShape [utf8 "ExternalID", utf8 "Organizations"]
        [utf8 "UserID", utf8 "OrgID", utf8 "Email"] (User.toJSON ⟨e, some l⟩)
        = (l.map UserOrganization.toJSON).all
            (hasKeys [utf8 "UserID", utf8 "OrgID", utf8 "Email"]) := rfl
    rw [h, List.all_eq_true]
    intro j hj
    obtain ⟨m, _, rfl⟩ := List.mem_map.mp hj
    rfl

set_option maxRecDepth 20000 in
/-- C1, as stated, fails at its own witness: for the user `e1` with one
membership the text written is the one below, and read as JSON it is not an
array of objects with the keys `external_id`, `organizations` and `userId`,
`orgId`, `email`. -/
theorem C1_claimed_keys_counterexample :
    jsonMarshalIndent (some [userOne]) = .ok (utf8
      "[\n  \x7b\n    \"ExternalID\": \"e1\",\n    \"Organizations\": [\n      \x7b\n        \"UserID\": \"u1\",\n        \"OrgID\": \"org_123\",\n        \"Email\": \"a@x.com\"\n      \x7d\n    ]\n  \x7d\n]") ∧
    (parseJSON (marshalUsers (some [userOne]))).map
      (usersShape [utf8 "external_id", utf8 "organizations"]
        [utf8 "userId", utf8 "orgId", utf8 "email"]) = some false := by
  constructor
  · have h : marshalUsers (some [userOne]) = utf8
      "[\n  \x7b\n    \"ExternalID\": \"e1\",\n    \"Organizations\": [\n      \x7b\n        \"UserID\": \"u1\",\n        \"OrgID\": \"org_123\",\n        \"Email\": \"a@x.com\"\n      \x7d\n    ]\n  \x7d\n]" := by
      decide
    rw [jsonMarshalIndent, h]
  · rw [parseJSON_marshalUsers]
    rfl

/-- C1, amended: the text written for a list of users always reads as JSON,
with and without the line break that follows it; for a non-nil list it is an
array in which each user object has exactly the keys
`ExternalID` and `Organizations`, the Go field names that `encoding/json` uses
for structs that carry only `bson` tags, and `Organizations` is null or an
array of objects with exactly the keys `UserID`, `OrgID` and `Email`; for a nil
list the text is `null`. -/
theorem C1_written_keys (users : GoSlice User) :
    User.fields.filterMap jsonKey = [utf8 "ExternalID", utf8 "Organizations"] ∧
    UserOrganization.fields.filterMap jsonKey = [utf8 "UserID", utf8 "OrgID", utf8 "Email"] ∧
    ∃ text j, jsonMarshalIndent users = .ok text ∧ parseJSON text = some j ∧
      parseJSON (text ++ [0x0A]) = some j ∧
      (users.isSome = true →
        usersShape [utf8 "ExternalID", utf8 "Organizations"]
          [utf8 "UserID", utf8 "OrgID", utf8 "Email"] j = true) ∧
      (users = none → text = utf8 "null") := by
  refine ⟨by decide, by decide, marshalUsers users, usersJSON users, rfl,
    parseJSON_marshalUsers users, parseJSON_newline_of_parses (parses_users users), ?_, ?_⟩
  · intro hs
    cases users with
    | none => cases hs
    | some l =>
      show (l.map User.toJSON).all _ = true
      rw [List.all_eq_true]
      intro j hj
      obtain ⟨u, _, rfl⟩ := List.mem_map.mp hj
      exact userShape_toJSON u
  · intro h
    rw [h]
    rfl

/-- C1, amended, at the user `e1` with one membership. -/
theorem C1_written_keys_witness :
    ∃ text j, jsonMarshalIndent (some [userOne]) = .ok text ∧ parseJSON text = some j ∧
      usersShape [utf8 "ExternalID", utf8 "Organizations"]
        [utf8 "UserID", utf8 "OrgID", utf8 "Email"] j = true :=
  match (C1_written_keys (some [userOne])).2.2 with
  | ⟨text, j, h1, h2, _, h3, _⟩ => ⟨text, j, h1, h2, h3 rfl⟩

/-- C2, as stated, fails: a user whose external identifier holds the byte
`0xE9` serializes without error, and parsing the text gives the identifier with
that byte replaced by U+FFFD, not the original. -/
theorem C2_roundtrip_counterexample :
    ∃ text, jsonMarshalIndent (some [userLatin1]) = .ok text ∧
      jsonUnmarshal text
        = .ok (some [{ userLatin1 with ExternalID := [0x63, 0x61, 0x66, 0xEF, 0xBF, 0xBD] }]) ∧
      jsonUnmarshal text ≠ .ok (some [userLatin1]) := by
  have h : jsonUnmarshal (marshalUsers (some [userLatin1]))
      = .ok (some [{ userLatin1 with ExternalID := [0x63, 0x61, 0x66, 0xEF, 0xBF, 0xBD] }]) := by
    rw [jsonUnmarshal_marshalUsers]
    rfl
  refine ⟨marshalUsers (some [userLatin1]), rfl, h, ?_⟩
  rw [h]
  intro hne
  have := Except.ok.inj hne
  revert this
  decide

/-- C2, amended: for every list of users serialization succeeds, and parsing
the text gives the list back with every string coerced to well-formed UTF-8,
that is with every invalid byte replaced by U+FFFD and every other byte kept;
so for every list whose strings are all well-formed UTF-8 it gives the list
itself, nil and empty slices included. -/
theorem C2_roundtrip_valid :
    (∀ users : GoSlice User, ∃ text, jsonMarshalIndent users = .ok text ∧
      jsonUnmarshal text = .ok (users.map (List.map User.toValid)) ∧
      ((∀ u ∈ users.elems, u.valid = true) → jsonUnmarshal text = .ok users)) ∧
    (∀ u : User, u.toValid = ⟨toValidUTF8 u.ExternalID, u.Organizations.map (List.map
      (fun m => ⟨toValidUTF8 m.UserID, toValidUTF8 m.OrgID, toValidUTF8 m.Email⟩))⟩) ∧
    (∀ s, validUTF8 s = true → toValidUTF8 s = s) ∧
    toValidUTF8 [] = [] ∧
    (∀ b rest, b < 0x80 → toValidUTF8 (b :: rest) = b :: toValidUTF8 rest) ∧
    (∀ b rest, 0x80 ≤ b → invalidHead (b :: rest) = true →
      toValidUTF8 (b :: rest) = 0xEF :: 0xBF :: 0xBD :: toValidUTF8 rest) ∧
    (∀ b rest, 0x80 ≤ b → invalidHead (b :: rest) = false →
      toValidUTF8 (b :: rest) = (b :: rest).take (decodeRune (b :: rest)).2 ++
        toValidUTF8 ((b :: rest).drop (decodeRune (b :: rest)).2)) := by
  refine ⟨fun users => ⟨marshalUsers users, rfl, jsonUnmarshal_marshalUsers users, ?_⟩,
    fun _ => rfl, toValidUTF8_of_valid, toValidUTF8_steps⟩
  intro hv
  rw [jsonUnmarshal_marshalUsers]
  cases users with
  | none => rfl
  | some l =>
    have hl : l.map User.toValid = l := by
      induction l with
      | nil => rfl
      | cons u us ih =>
        rw [List.map_cons, toValid_of_valid u (hv u (by simp [GoSlice.elems])),
          ih (fun x hx => hv x (by simp [GoSlice.elems] at hx ⊢; exact Or.inr hx))]
    simp only [Option.map_some', hl]

/-- C2, amended, on a list with one, two, no and nil memberships and text
outside ASCII, on the empty and the nil list, and on the user whose identifier
holds the byte `0xE9`. -/
theorem C2_roundtrip_valid_witness :
    (∃ text, jsonMarshalIndent (some [userOne, userTwo, userNone, userNil]) = .ok text ∧
      jsonUnmarshal text = .ok (some [userOne, userTwo, userNone, userNil])) ∧
    (∃ text, jsonMarshalIndent (some []) = .ok text ∧ jsonUnmarshal text = .ok (some [])) ∧
    (∃ text, jsonMarshalIndent none = .ok text ∧ jsonUnmarshal text = .ok none) ∧
    (∃ text, jsonMarshalIndent (some [userLatin1]) = .ok text ∧
      jsonUnmarshal text
        = .ok (some [{ userLatin1 with ExternalID := [0x63, 0x61, 0x66, 0xEF, 0xBF, 0xBD] }])) :=
  ⟨match C2_roundtrip_valid.1 (some [userOne, userTwo, userNone, userNil]) with
    | ⟨text, h1, _, h3⟩ => ⟨text, h1, h3 (by decide)⟩,
   match C2_roundtrip_valid.1 (some []) with
    | ⟨text, h1, _, h3⟩ => ⟨text, h1, h3 (by decide)⟩,
   match C2_roundtrip_valid.1 none with
    | ⟨text, h1, _, h3⟩ => ⟨text, h1, h3 (by decide)⟩,
   match C2_roundtrip_valid.1 (some [userLatin1]) with
    | ⟨text, h1, h2, _⟩ => ⟨text, h1, h2.trans rfl⟩⟩

end Monget
